import Mathlib

/-!
Verification of the QOI image plugin (QoiImagePlugin.py).

The development shallowly embeds the module: the format constants, the pixel
hash, the streaming decoder QoiDecoder.decode, the streaming encoder
QoiEncoder.encode with its bounded output buffer, and the file-level driver
save together with the header parsing done by QoiImageFile and the qoi
decoder registration.

Machine integers are modelled as Nat with explicit wraparound, and Python int
subtraction (which may go negative) as Int with Int.emod for the Python
percent operator.  Pixels are 4-tuples of naturals; raw image rows are lists
of naturals of length 3 or 4, exactly the tuples PIL getpixel and putpixel
exchange with the plugin.
-/

/-- Format constants from QoiImagePlugin.py lines 34 to 46. -/
def QOI_MAGIC : List Nat := [113, 111, 105, 102]

def QOI_HEADER_RGB : Nat := 3

def QOI_HEADER_RGBA : Nat := 4

def QOI_HEADER_SRGB : Nat := 0

def QOI_OP_RGB : Nat := 0xFE

def QOI_OP_RGBA : Nat := 0xFF

def QOI_OP_INDEX : Nat := 0x00

def QOI_OP_DIFF : Nat := 0x40

def QOI_OP_LUMA : Nat := 0x80

def QOI_OP_RUN : Nat := 0xC0

def QOI_OP_MASK : Nat := 0b11000000

def QOI_EOF_MARKER : List Nat := [0, 0, 0, 0, 0, 0, 0, 1]

/-- A fully resolved pixel: the 4-tuple (r, g, b, a) of 8-bit channel values. -/
structure Pix where
  r : Nat
  g : Nat
  b : Nat
  a : Nat
deriving DecidableEq

/-- All four channels are bytes. -/
def Pix.Valid (p : Pix) : Prop := p.r < 256 ∧ p.g < 256 ∧ p.b < 256 ∧ p.a < 256

instance (p : Pix) : Decidable p.Valid := by
  unfold Pix.Valid
  infer_instance

/-- Source line 53 to 55: the color-cache hash of a pixel. -/
def pixel_hash (p : Pix) : Nat := (p.r * 3 + p.g * 5 + p.b * 7 + p.a * 11) % 64

/-- Reading slot n of the 64-entry color cache (a Python list index). -/
def cacheGet (cache : List Pix) (n : Nat) : Pix := cache.getD n ⟨0, 0, 0, 0⟩

/-- Writing slot n of the color cache. -/
def cacheSet (cache : List Pix) (n : Nat) (p : Pix) : List Pix := cache.set n p

/-- The zeroed 64-slot cache built in both constructors (lines 79 and 163). -/
def initCache : List Pix := List.replicate 64 ⟨0, 0, 0, 0⟩

/-- Source lines 174 to 175: a 3-tuple from getpixel gets alpha 255 appended;
a 4-tuple is taken as is.  Missing components default to 0 (never exercised on
well-formed rows). -/
def toPix4 (raw : List Nat) : Pix :=
  if raw.length = 3 then ⟨raw.getD 0 0, raw.getD 1 0, raw.getD 2 0, 255⟩
  else ⟨raw.getD 0 0, raw.getD 1 0, raw.getD 2 0, raw.getD 3 0⟩

/-- The tuple _set_pixel passes to putpixel (lines 143 to 151): the full
4-tuple in RGBA mode, only (r, g, b) in RGB mode.  mode3 means the image mode
is RGB. -/
def emitPix (mode3 : Bool) (p : Pix) : List Nat :=
  if mode3 then [p.r, p.g, p.b] else [p.r, p.g, p.b, p.a]

/-! ## Encoder: opcode selection (QoiEncoder.encode loop body)

The loop body of QoiEncoder.encode (lines 172 to 239) writes, per admitted
pixel, an optional RUN flush byte followed by the bytes of one opcode.  We
record each write site as a Chunk carrying exactly the values the source
feeds into the write expression; chunkBytes is the byte expression of the
corresponding source line. -/

inductive Chunk where
  | runC (r : Nat)
  | indexC (hsh : Nat)
  | diffC (dr dg db : Int)
  | lumaC (dg dr db : Int)
  | rgbC (p : Pix)
  | rgbaC (p : Pix)
deriving DecidableEq

/-- The byte expressions of the six write sites: lines 184 and 191 and 242
(RUN), 197 (INDEX), 203 to 206 (DIFF), 214 to 215 (LUMA), 220 to 224 (RGB),
229 to 234 (RGBA). -/
def chunkBytes : Chunk → List Nat
  | Chunk.runC r => [QOI_OP_RUN ||| (r - 1)]
  | Chunk.indexC hsh => [QOI_OP_INDEX ||| hsh]
  | Chunk.diffC dr dg db =>
      [QOI_OP_DIFF ||| (((dr + 2) % 256).toNat <<< 4) |||
        (((dg + 2) % 256).toNat <<< 2) ||| ((db + 2) % 256).toNat]
  | Chunk.lumaC dg dr db =>
      [QOI_OP_LUMA ||| ((dg + 32) % 256).toNat,
        (((dr - dg + 8) % 256).toNat <<< 4) ||| ((db - dg + 8) % 256).toNat]
  | Chunk.rgbC p => [QOI_OP_RGB, p.r, p.g, p.b]
  | Chunk.rgbaC p => [QOI_OP_RGBA, p.r, p.g, p.b, p.a]

/-- Bytes of a chunk sequence, in emission order. -/
def chunksBytes : List Chunk → List Nat
  | [] => []
  | c :: cs => chunkBytes c ++ chunksBytes cs

/-- The encoder state that drives opcode selection: previous_pixel, cache and
run counter (lines 162 to 166, minus the scan position). -/
structure EncSt where
  previous_pixel : Pix
  cache : List Pix
  run : Nat
deriving DecidableEq

/-- Initial opcode-selection state of a fresh QoiEncoder (lines 162 to 166). -/
def encInit : EncSt := ⟨⟨0, 0, 0, 255⟩, initCache, 0⟩

/-- Lines 195 to 235: the if/elif chain choosing the opcode of a non-run
pixel, in source order: INDEX, DIFF, LUMA, RGB, RGBA, first match wins. -/
def opSelect (st : EncSt) (pixel : Pix) (dr dg db : Int) : Chunk :=
  if pixel = cacheGet st.cache (pixel_hash pixel) then
    Chunk.indexC (pixel_hash pixel)
  else if pixel.a = st.previous_pixel.a ∧ (dr + 2) % 256 < 4 ∧
      (dg + 2) % 256 < 4 ∧ (db + 2) % 256 < 4 then
    Chunk.diffC dr dg db
  else if pixel.a = st.previous_pixel.a ∧ (dg + 32) % 256 < 64 ∧
      (dr - dg + 8) % 256 < 16 ∧ (db - dg + 8) % 256 < 16 then
    Chunk.lumaC dg dr db
  else if pixel.a = st.previous_pixel.a then
    Chunk.rgbC pixel
  else
    Chunk.rgbaC pixel

/-- One iteration of the encoder loop body for an admitted pixel (lines 176 to
239): the run branch with its flush when run exceeds 61, otherwise the pending
run flush, the opcode, and the cache and predictor update. -/
def encStep (st : EncSt) (pixel : Pix) : List Chunk × EncSt :=
  let dr : Int := (pixel.r : Int) - (st.previous_pixel.r : Int)
  let dg : Int := (pixel.g : Int) - (st.previous_pixel.g : Int)
  let db : Int := (pixel.b : Int) - (st.previous_pixel.b : Int)
  if pixel = st.previous_pixel then
    if st.run + 1 > 61 then ([Chunk.runC (st.run + 1)], ⟨st.previous_pixel, st.cache, 0⟩)
    else ([], ⟨st.previous_pixel, st.cache, st.run + 1⟩)
  else
    let flush := if st.run ≠ 0 then [Chunk.runC st.run] else []
    (flush ++ [opSelect st pixel dr dg db],
      ⟨pixel, cacheSet st.cache (pixel_hash pixel) pixel, 0⟩)

/-- Folding encStep over a pixel list: the chunk stream the encoder session
emits for these pixels, and the state it is left in. -/
def encChunks (st : EncSt) : List Pix → List Chunk × EncSt
  | [] => ([], st)
  | p :: ps =>
      let s := encStep st p
      let rest := encChunks s.2 ps
      (s.1 ++ rest.1, rest.2)

/-- Lines 241 to 243: the final RUN flush once eof is reached, emitted when a
run is still pending.  The source does not reset the run counter here. -/
def encFinish (st : EncSt) : List Chunk :=
  if st.run ≠ 0 then [Chunk.runC st.run] else []

/-- The full chunk stream of one encoding session over a pixel list. -/
def encodeChunks (ps : List Pix) : List Chunk :=
  (encChunks encInit ps).1 ++ encFinish (encChunks encInit ps).2

/-- The opcode bytes (between header and end marker) of one session. -/
def encodeBody (ps : List Pix) : List Nat := chunksBytes (encodeChunks ps)

/-- The chunk bytes emitted from state st onward for the remaining pixels,
final flush included. -/
def encRest (st : EncSt) (ps : List Pix) : List Nat :=
  chunksBytes (encChunks st ps).1 ++ chunksBytes (encFinish (encChunks st ps).2)

/-! ## Decoder (QoiDecoder) -/

/-- Decoder state outside the output image: current_pixel and cache
(lines 78 to 79).  The scan position x, y of the source is represented by the
length of the emitted output list (the source advances x, y row-major by one
per putpixel, exactly the append position). -/
structure DecSt where
  current_pixel : Pix
  cache : List Pix
deriving DecidableEq

/-- Initial state of a fresh QoiDecoder (lines 78 to 79). -/
def decInit : DecSt := ⟨⟨0, 0, 0, 255⟩, initCache⟩

/-- Decode errors: putpixel raises when the scan position leaves the image,
which happens exactly when width times height pixels were already written.
The file-level loader adds its two header failures. -/
inductive QoiErr where
  | putpixelRange
  | badMagic
  | shortHeader
deriving DecidableEq

/-- Result of QoiDecoder.decode: either the pair the method returns - done is
true for the return -1, 0 at the end marker and false for the return i, 0
when fewer than 6 bytes remain - together with the mutated state and output,
or the putpixel error. -/
inductive DecRes where
  | ok (done : Bool) (i : Nat) (st : DecSt) (out : List (List Nat))
  | err (e : QoiErr)
deriving DecidableEq

/-- _set_pixel (lines 143 to 155): putpixel the current pixel at the scan
position and advance; putpixel raises once width times height pixels exist. -/
def set_pixel (mode3 : Bool) (cap : Nat) (p : Pix) (out : List (List Nat)) :
    Option (List (List Nat)) :=
  if out.length < cap then some (out ++ [emitPix mode3 p]) else none

/-- The run branch (lines 127 to 130) calls _set_pixel n times in a row. -/
def set_pixelN (mode3 : Bool) (cap : Nat) : Nat → Pix → List (List Nat) →
    Option (List (List Nat))
  | 0, _, out => some out
  | n + 1, p, out =>
      match set_pixel mode3 cap p out with
      | none => none
      | some out' => set_pixelN mode3 cap n p out'

namespace QoiDecoder

/-- QoiDecoder.decode (lines 83 to 135), on the suffix of the buffer from the
current index i.  The source loop condition i + 5 < len(buffer) reads here as
5 < rem.length; the absolute index i is threaded through only to reproduce the
return value.  fuel only bounds the recursion; every call in this development
passes at least rem.length + 1, which the loop can never exhaust since each
iteration consumes at least one byte. -/
def decode (mode3 : Bool) (cap : Nat) :
    Nat → List Nat → Nat → DecSt → List (List Nat) → DecRes
  | 0, _, i, st, out => DecRes.ok false i st out
  | fuel + 1, rem, i, st, out =>
    if 5 < rem.length then
      if rem.take 8 = QOI_EOF_MARKER then DecRes.ok true i st out
      else
      let tag := rem.getD 0 0
      if tag = QOI_OP_RGBA then
        let cp : Pix := ⟨rem.getD 1 0, rem.getD 2 0, rem.getD 3 0, rem.getD 4 0⟩
        match set_pixel mode3 cap cp out with
        | none => DecRes.err QoiErr.putpixelRange
        | some out' =>
            decode mode3 cap fuel (rem.drop 5) (i + 5)
              ⟨cp, cacheSet st.cache (pixel_hash cp) cp⟩ out'
      else if tag = QOI_OP_RGB then
        let cp : Pix := ⟨rem.getD 1 0, rem.getD 2 0, rem.getD 3 0, st.current_pixel.a⟩
        match set_pixel mode3 cap cp out with
        | none => DecRes.err QoiErr.putpixelRange
        | some out' =>
            decode mode3 cap fuel (rem.drop 4) (i + 4)
              ⟨cp, cacheSet st.cache (pixel_hash cp) cp⟩ out'
      else if tag &&& QOI_OP_MASK = QOI_OP_INDEX then
        let cp : Pix := cacheGet st.cache (tag &&& 63)
        match set_pixel mode3 cap cp out with
        | none => DecRes.err QoiErr.putpixelRange
        | some out' =>
            decode mode3 cap fuel (rem.drop 1) (i + 1)
              ⟨cp, cacheSet st.cache (pixel_hash cp) cp⟩ out'
      else if tag &&& QOI_OP_MASK = QOI_OP_DIFF then
        let dr : Int := (((tag >>> 4) &&& 3 : Nat) : Int) - 2
        let dg : Int := (((tag >>> 2) &&& 3 : Nat) : Int) - 2
        let db : Int := ((tag &&& 3 : Nat) : Int) - 2
        let cp : Pix := ⟨(((st.current_pixel.r : Int) + dr) % 256).toNat,
          (((st.current_pixel.g : Int) + dg) % 256).toNat,
          (((st.current_pixel.b : Int) + db) % 256).toNat, st.current_pixel.a⟩
        match set_pixel mode3 cap cp out with
        | none => DecRes.err QoiErr.putpixelRange
        | some out' =>
            decode mode3 cap fuel (rem.drop 1) (i + 1)
              ⟨cp, cacheSet st.cache (pixel_hash cp) cp⟩ out'
      else if tag &&& QOI_OP_MASK = QOI_OP_LUMA then
        let dg : Int := ((tag &&& 63 : Nat) : Int) - 32
        let diffs := rem.getD 1 0
        let dr : Int := ((diffs >>> 4 : Nat) : Int) - 8 + dg
        let db : Int := ((diffs &&& 15 : Nat) : Int) - 8 + dg
        let cp : Pix := ⟨(((st.current_pixel.r : Int) + dr) % 256).toNat,
          (((st.current_pixel.g : Int) + dg) % 256).toNat,
          (((st.current_pixel.b : Int) + db) % 256).toNat, st.current_pixel.a⟩
        match set_pixel mode3 cap cp out with
        | none => DecRes.err QoiErr.putpixelRange
        | some out' =>
            decode mode3 cap fuel (rem.drop 2) (i + 2)
              ⟨cp, cacheSet st.cache (pixel_hash cp) cp⟩ out'
      else
        match set_pixelN mode3 cap ((tag &&& 63) + 1) st.current_pixel out with
        | none => DecRes.err QoiErr.putpixelRange
        | some out' => decode mode3 cap fuel (rem.drop 1) (i + 1) st out'
    else DecRes.ok false i st out

end QoiDecoder

/-! ## Encoder with bounded output buffer (QoiEncoder) -/

/-- The image handed to the codecs: PIL mode string, size, and the flat
row-major list of raw pixel tuples. -/
structure Img where
  mode : String
  width : Nat
  height : Nat
  data : List (List Nat)
deriving DecidableEq

/-- PIL getpixel: defined only inside the image, raw tuple at row-major
position y * width + x. -/
def Img.getpixel (img : Img) (x y : Nat) : Option (List Nat) :=
  if x < img.width ∧ y < img.height then some (img.data.getD (y * img.width + x) [])
  else none

/-- The full mutable state of a QoiEncoder (lines 160 to 167). -/
structure EncIOSt where
  previous_pixel : Pix
  cache : List Pix
  x : Nat
  y : Nat
  run : Nat
  eof : Bool
deriving DecidableEq

/-- A fresh QoiEncoder (lines 160 to 167). -/
def encIOInit : EncIOSt := ⟨⟨0, 0, 0, 255⟩, initCache, 0, 0, 0, false⟩

/-- _advance_pixel (lines 247 to 252). -/
def advance_pixel (img : Img) (st : EncIOSt) : EncIOSt :=
  let x := st.x + 1
  if x ≥ img.width then
    { st with x := 0, y := st.y + 1, eof := decide (st.y + 1 ≥ img.height) }
  else
    { st with x := x, eof := decide (st.y ≥ img.height) }

namespace QoiEncoder

/-- The while loop of QoiEncoder.encode (lines 172 to 243).  out is the
prefix of the buffer written so far, so out.length is the write index i.
Writes inside the loop run under the guard i + 6 < bufsize and extend the
buffer prefix; the post-loop RUN flush is a single-index bytearray write that
raises IndexError when i is outside the buffer, modelled by none.  none also
covers a getpixel outside the image and fuel exhaustion; with the fuel chosen
in encode the loop always terminates before the fuel does, since every
iteration advances the scan position. -/
def encodeLoop (img : Img) (bufsize : Nat) :
    Nat → EncIOSt → List Nat → Option (List Nat × EncIOSt)
  | 0, _, _ => none
  | fuel + 1, st, out =>
    if st.eof = false ∧ out.length + 6 < bufsize then
      match img.getpixel st.x st.y with
      | none => none
      | some raw =>
          let pixel := toPix4 raw
          let s := encStep ⟨st.previous_pixel, st.cache, st.run⟩ pixel
          let st' := advance_pixel img st
          encodeLoop img bufsize fuel
            ⟨s.2.previous_pixel, s.2.cache, st'.x, st'.y, s.2.run, st'.eof⟩
            (out ++ chunksBytes s.1)
    else
      if st.eof = true ∧ st.run ≠ 0 then
        if out.length < bufsize then
          some (out ++ [QOI_OP_RUN ||| (st.run - 1)], st)
        else none
      else some (out, st)

/-- QoiEncoder.encode (lines 169 to 245): run the loop on an empty buffer.
The returned byte list is the written prefix buffer[0:i] of the bytearray and
its length is the returned i; the done flag of the source return is the eof
field of the returned state. -/
def encode (img : Img) (bufsize : Nat) (st : EncIOSt) :
    Option (List Nat × EncIOSt) :=
  encodeLoop img bufsize (img.width * img.height + 1) st []

end QoiEncoder

/-! ## File-level save and load (_save, QoiImageFile._open, _accept) -/

/-- struct.pack of a big-endian uint32 (lines 267 and following). -/
def be32 (n : Nat) : List Nat :=
  [n / 2 ^ 24 % 256, n / 2 ^ 16 % 256, n / 2 ^ 8 % 256, n % 256]

/-- struct.unpack of a big-endian uint32 from the head of a byte list. -/
def parseBE32 (l : List Nat) : Nat :=
  l.getD 0 0 * 2 ^ 24 + l.getD 1 0 * 2 ^ 16 + l.getD 2 0 * 2 ^ 8 + l.getD 3 0

/-- Save errors: the ValueError for an unsupported mode (line 265), and any
exception escaping the encoder loop. -/
inductive SaveErr where
  | valueError
  | encoderRaised
deriving DecidableEq

/-- The while loop of _save (lines 281 to 285): call encode repeatedly with
the same bufsize, concatenating the written prefixes, until the status flag
reports eof. -/
def saveLoop (img : Img) (bufsize : Nat) : Nat → EncIOSt → Option (List Nat)
  | 0, _ => none
  | fuel + 1, st =>
      match QoiEncoder.encode img bufsize st with
      | none => none
      | some (bytes, st') =>
          if st'.eof then some bytes
          else (saveLoop img bufsize fuel st').map (fun rest => bytes ++ rest)

/-- _save (lines 263 to 293): reject non RGB/RGBA modes before writing, then
write the 14-byte header, the encoder output, and the end marker.  The pair
returned is the bytes written to fp and the failure if one occurred; on the
mode ValueError nothing was written, and if the encoder raises, the header
already reached fp. -/
def save (img : Img) : List Nat × Option SaveErr :=
  if img.mode ≠ "RGB" ∧ img.mode ≠ "RGBA" then ([], some SaveErr.valueError)
  else
    let header := QOI_MAGIC ++ be32 img.width ++ be32 img.height ++
      [if img.mode = "RGBA" then QOI_HEADER_RGBA else QOI_HEADER_RGB, QOI_HEADER_SRGB]
    match saveLoop img (max 65536 (img.width * 4)) (img.width * img.height + 1) encIOInit with
    | none => (header, some SaveErr.encoderRaised)
    | some body => (header ++ body ++ QOI_EOF_MARKER, none)

/-- Result of loading a byte stream: header fields, decoder return flag and
index, final decoder state and output rows; or a failure. -/
inductive LoadRes where
  | ok (w h channels : Nat) (done : Bool) (i : Nat) (st : DecSt) (out : List (List Nat))
  | err (e : QoiErr)
deriving DecidableEq

/-- _accept (lines 49 to 50) then QoiImageFile._open (lines 62 to 71) then one
QoiDecoder.decode call on the stream from tile offset 14: magic check, header
parse (width, height, channels; mode is RGB exactly when channels equals 3),
then the decode loop over the rest with capacity width times height. -/
def load (bytes : List Nat) : LoadRes :=
  if bytes.take 4 ≠ QOI_MAGIC then LoadRes.err QoiErr.badMagic
  else if bytes.length < 14 then LoadRes.err QoiErr.shortHeader
  else
    let w := parseBE32 (bytes.drop 4)
    let h := parseBE32 (bytes.drop 8)
    let channels := bytes.getD 12 0
    let mode3 := channels = QOI_HEADER_RGB
    let body := bytes.drop 14
    match QoiDecoder.decode mode3 (w * h) (body.length + 1) body 0 decInit [] with
    | DecRes.ok done i st out => LoadRes.ok w h channels done i st out
    | DecRes.err e => LoadRes.err e

/-- The pixel buffer a successful, completed load delivers. -/
def loadPixels (bytes : List Nat) : Option (Nat × Nat × Nat × List (List Nat)) :=
  match load bytes with
  | LoadRes.ok w h channels true _ _ out => some (w, h, channels, out)
  | _ => none

/-- The decoder cache left behind by a completed load. -/
def loadFinalCache (bytes : List Nat) : Option (List Pix) :=
  match load bytes with
  | LoadRes.ok _ _ _ true _ st _ => some st.cache
  | _ => none

/-- A well-formed raw row for the given mode: length matching the channel
count and byte-sized values. -/
def rowValid (mode3 : Bool) (raw : List Nat) : Prop :=
  raw.length = (if mode3 then 3 else 4) ∧ ∀ v ∈ raw, v < 256

/-! ## Byte-level facts about the opcode tags

The decoder dispatches on the tag byte; these lemmas compute the dispatch for
each byte shape the encoder can emit.  All are parametrised over the small
payload fields and discharged by decision. -/

/-- Dispatch facts for a RUN byte 0xC0 or-ed with a 6-bit length minus one. -/
theorem runByteFacts : ∀ x, x < 62 →
    (192 ||| x ≠ 255 ∧ 192 ||| x ≠ 254 ∧ (192 ||| x) &&& 192 = 192 ∧
      (192 ||| x) &&& 63 = x ∧ 192 ||| x ≠ 0 ∧ 192 ≤ 192 ||| x ∧ 192 ||| x ≤ 253) := by
  decide

/-- Dispatch facts for an INDEX byte, which is the bare 6-bit hash. -/
theorem indexByteFacts : ∀ x, x < 64 →
    (0 ||| x = x ∧ x ≠ 255 ∧ x ≠ 254 ∧ x &&& 192 = 0 ∧ x &&& 63 = x) := by
  decide

/-- Dispatch and field-extraction facts for a DIFF byte. -/
theorem diffByteFacts (a b c : Nat) (ha : a < 4) (hb : b < 4) (hc : c < 4) :
    (64 ||| (a <<< 4) ||| (b <<< 2) ||| c ≠ 255 ∧
      64 ||| (a <<< 4) ||| (b <<< 2) ||| c ≠ 254 ∧
      (64 ||| (a <<< 4) ||| (b <<< 2) ||| c) &&& 192 = 64 ∧
      ((64 ||| (a <<< 4) ||| (b <<< 2) ||| c) >>> 4) &&& 3 = a ∧
      ((64 ||| (a <<< 4) ||| (b <<< 2) ||| c) >>> 2) &&& 3 = b ∧
      (64 ||| (a <<< 4) ||| (b <<< 2) ||| c) &&& 3 = c ∧
      64 ||| (a <<< 4) ||| (b <<< 2) ||| c ≠ 0) := by
  interval_cases a <;> interval_cases b <;> interval_cases c <;> decide

/-- Dispatch facts for the first LUMA byte. -/
theorem lumaByteFacts : ∀ g, g < 64 →
    (128 ||| g ≠ 255 ∧ 128 ||| g ≠ 254 ∧ (128 ||| g) &&& 192 = 128 ∧
      (128 ||| g) &&& 63 = g ∧ 128 ||| g ≠ 0) := by
  decide

/-- Field extraction from the second LUMA byte. -/
theorem lumaByte2Facts : ∀ x, x < 16 → ∀ y, y < 16 →
    ((x <<< 4 ||| y) >>> 4 = x ∧ (x <<< 4 ||| y) &&& 15 = y) := by
  decide

/-- A list whose head is nonzero can never pass the end-marker comparison. -/
theorem take8_ne_marker {b : Nat} (l : List Nat) (hb : b ≠ 0) :
    (b :: l).take 8 ≠ QOI_EOF_MARKER := by
  intro h
  rw [List.take_succ_cons, QOI_EOF_MARKER] at h
  exact hb (List.head_eq_of_cons_eq h)

/-- A nonnegative integer below a bound stays below it after toNat. -/
theorem emod256_toNat_lt {z : Int} {k : Nat} (h : z % 256 < k) :
    (z % 256).toNat < k := by
  omega

/-- Setting a cache slot keeps the 64-slot shape. -/
theorem cacheSet_length (cache : List Pix) (n : Nat) (p : Pix) :
    (cacheSet cache n p).length = cache.length := by
  simp [cacheSet]

/-- Reading back the slot just written. -/
theorem cacheGet_cacheSet_self {cache : List Pix} {n : Nat} (p : Pix)
    (h : n < cache.length) : cacheGet (cacheSet cache n p) n = p := by
  simp [cacheGet, cacheSet, List.getD_eq_getElem?_getD, List.getElem?_set_self h]

/-- The pixel hash is always a valid cache index. -/
theorem pixel_hash_lt (p : Pix) : pixel_hash p < 64 := by
  exact Nat.mod_lt _ (by norm_num)

/-- chunksBytes distributes over append. -/
theorem chunksBytes_append (cs ds : List Chunk) :
    chunksBytes (cs ++ ds) = chunksBytes cs ++ chunksBytes ds := by
  induction cs with
  | nil => rfl
  | cons c cs ih => simp [chunksBytes, ih]

/-- Successful run of n putpixel calls, appending n copies of the pixel. -/
theorem set_pixelN_ok (mode3 : Bool) (cap : Nat) :
    ∀ (n : Nat) (p : Pix) (out : List (List Nat)), out.length + n ≤ cap →
      set_pixelN mode3 cap n p out = some (out ++ List.replicate n (emitPix mode3 p)) := by
  intro n
  induction n with
  | zero => intro p out _; simp [set_pixelN]
  | succ n ih =>
      intro p out h
      have hlt : out.length < cap := by omega
      simp only [set_pixelN, set_pixel, if_pos hlt]
      rw [ih p (out ++ [emitPix mode3 p]) (by simp; omega)]
      simp [List.replicate_succ]

/-! ## One-opcode progression lemmas for the decoder

Each lemma consumes the bytes of one encoder chunk at the head of the stream
and relates the decoder to its state after that opcode.  The hypotheses are
exactly what the encoder guarantees at the corresponding emission site. -/

/-- Decoding a RUN opcode: the current pixel is emitted (length) times and the
cache and current pixel are left untouched. -/
theorem decode_step_run (mode3 : Bool) (cap fuel i : Nat) (rest : List Nat)
    (st : DecSt) (out : List (List Nat)) (r : Nat)
    (hr1 : 1 ≤ r) (hr2 : r ≤ 62) (hrest : 8 ≤ rest.length)
    (hcap : out.length + r ≤ cap) :
    QoiDecoder.decode mode3 cap (fuel + 1) (chunkBytes (Chunk.runC r) ++ rest) i st out
      = QoiDecoder.decode mode3 cap fuel rest (i + 1) st
          (out ++ List.replicate r (emitPix mode3 st.current_pixel)) := by
  have hx : r - 1 < 62 := by omega
  obtain ⟨hne255, hne254, hmask, hand63, hne0, -, -⟩ := runByteFacts (r - 1) hx
  rw [chunkBytes]
  rw [List.cons_append, List.nil_append, QoiDecoder.decode]
  rw [if_pos (by simp only [List.length_cons]; omega)]
  rw [if_neg (take8_ne_marker _ (by simpa [QOI_OP_RUN] using hne0))]
  simp only [List.getD_cons_zero, List.drop_succ_cons, List.drop_zero,
    QOI_OP_RGBA, QOI_OP_RGB, QOI_OP_MASK, QOI_OP_INDEX, QOI_OP_DIFF, QOI_OP_LUMA, QOI_OP_RUN]
  rw [if_neg hne255, if_neg hne254, if_neg (by rw [hmask]; decide),
    if_neg (by rw [hmask]; decide), if_neg (by rw [hmask]; decide)]
  rw [hand63, show r - 1 + 1 = r by omega]
  rw [set_pixelN_ok mode3 cap r st.current_pixel out hcap]

/-- Decoding an INDEX opcode: the cache slot becomes the current pixel, is
emitted, and its own hash slot is rewritten.  The head byte may be zero, so
the caller must rule out the end-marker comparison. -/
theorem decode_step_index (mode3 : Bool) (cap fuel i : Nat) (rest : List Nat)
    (st : DecSt) (out : List (List Nat)) (hsh : Nat)
    (hh : hsh < 64) (hrest : 8 ≤ rest.length)
    (hmarker : (chunkBytes (Chunk.indexC hsh) ++ rest).take 8 ≠ QOI_EOF_MARKER)
    (hcap : out.length < cap) :
    QoiDecoder.decode mode3 cap (fuel + 1) (chunkBytes (Chunk.indexC hsh) ++ rest) i st out
      = QoiDecoder.decode mode3 cap fuel rest (i + 1)
          ⟨cacheGet st.cache hsh,
            cacheSet st.cache (pixel_hash (cacheGet st.cache hsh)) (cacheGet st.cache hsh)⟩
          (out ++ [emitPix mode3 (cacheGet st.cache hsh)]) := by
  obtain ⟨hzor, hne255, hne254, hmask, hand63⟩ := indexByteFacts hsh hh
  rw [chunkBytes] at hmarker ⊢
  rw [QOI_OP_INDEX] at hmarker ⊢
  rw [hzor] at hmarker ⊢
  rw [List.cons_append, List.nil_append] at hmarker ⊢
  rw [QoiDecoder.decode]
  rw [if_pos (by simp only [List.length_cons]; omega)]
  rw [if_neg hmarker]
  simp only [List.getD_cons_zero, List.drop_succ_cons, List.drop_zero,
    QOI_OP_RGBA, QOI_OP_RGB, QOI_OP_MASK, QOI_OP_INDEX, QOI_OP_DIFF, QOI_OP_LUMA, QOI_OP_RUN]
  rw [if_neg hne255, if_neg hne254, if_pos hmask]
  rw [hand63]
  rw [set_pixel, if_pos hcap]

/-- Reaching the end marker returns the done flag with everything unchanged. -/
theorem decode_at_marker (mode3 : Bool) (cap fuel i : Nat) (st : DecSt)
    (out : List (List Nat)) :
    QoiDecoder.decode mode3 cap (fuel + 1) QOI_EOF_MARKER i st out
      = DecRes.ok true i st out := by
  rw [QoiDecoder.decode, if_pos (by decide), if_pos (by decide)]

/-- Decoding an RGBA opcode emitted for pixel p. -/
theorem decode_step_rgba (mode3 : Bool) (cap fuel i : Nat) (rest : List Nat)
    (cache : List Pix) (prev p : Pix) (out : List (List Nat))
    (hrest : 8 ≤ rest.length) (hcap : out.length < cap) :
    QoiDecoder.decode mode3 cap (fuel + 1) (chunkBytes (Chunk.rgbaC p) ++ rest) i
        ⟨prev, cache⟩ out
      = QoiDecoder.decode mode3 cap fuel rest (i + 5)
          ⟨p, cacheSet cache (pixel_hash p) p⟩ (out ++ [emitPix mode3 p]) := by
  rw [chunkBytes, QOI_OP_RGBA]
  simp only [List.cons_append, List.nil_append]
  rw [QoiDecoder.decode]
  rw [if_pos (by simp only [List.length_cons]; omega)]
  rw [if_neg (take8_ne_marker _ (by decide))]
  simp only [List.getD_cons_zero, List.getD_cons_succ, QOI_OP_RGBA, if_true]
  rw [set_pixel, if_pos hcap]
  rfl

/-- Decoding an RGB opcode emitted for pixel p, whose alpha matches the
current pixel. -/
theorem decode_step_rgb (mode3 : Bool) (cap fuel i : Nat) (rest : List Nat)
    (cache : List Pix) (prev p : Pix) (out : List (List Nat))
    (ha : p.a = prev.a)
    (hrest : 8 ≤ rest.length) (hcap : out.length < cap) :
    QoiDecoder.decode mode3 cap (fuel + 1) (chunkBytes (Chunk.rgbC p) ++ rest) i
        ⟨prev, cache⟩ out
      = QoiDecoder.decode mode3 cap fuel rest (i + 4)
          ⟨p, cacheSet cache (pixel_hash p) p⟩ (out ++ [emitPix mode3 p]) := by
  rw [chunkBytes, QOI_OP_RGB]
  simp only [List.cons_append, List.nil_append]
  rw [QoiDecoder.decode]
  rw [if_pos (by simp only [List.length_cons]; omega)]
  rw [if_neg (take8_ne_marker _ (by decide))]
  simp only [List.getD_cons_zero, List.getD_cons_succ, QOI_OP_RGBA, QOI_OP_RGB]
  rw [if_neg (by decide : ¬ (254 : Nat) = 255)]
  simp only [if_true]
  have hp : (⟨p.r, p.g, p.b, (⟨prev, cache⟩ : DecSt).current_pixel.a⟩ : Pix) = p := by
    show (⟨p.r, p.g, p.b, prev.a⟩ : Pix) = p
    rw [← ha]
  rw [hp]
  rw [set_pixel, if_pos hcap]
  rfl

/-- Decoding a DIFF opcode emitted for the transition prev to p: the wrapped
deltas are recovered and the decoder resolves exactly p. -/
theorem decode_step_diff (mode3 : Bool) (cap fuel i : Nat) (rest : List Nat)
    (cache : List Pix) (prev p : Pix) (out : List (List Nat))
    (hpv : p.Valid) (hprevv : prev.Valid) (ha : p.a = prev.a)
    (hdr : ((p.r : Int) - (prev.r : Int) + 2) % 256 < 4)
    (hdg : ((p.g : Int) - (prev.g : Int) + 2) % 256 < 4)
    (hdb : ((p.b : Int) - (prev.b : Int) + 2) % 256 < 4)
    (hrest : 8 ≤ rest.length) (hcap : out.length < cap) :
    QoiDecoder.decode mode3 cap (fuel + 1)
        (chunkBytes (Chunk.diffC ((p.r : Int) - (prev.r : Int))
          ((p.g : Int) - (prev.g : Int)) ((p.b : Int) - (prev.b : Int))) ++ rest) i
        ⟨prev, cache⟩ out
      = QoiDecoder.decode mode3 cap fuel rest (i + 1)
          ⟨p, cacheSet cache (pixel_hash p) p⟩ (out ++ [emitPix mode3 p]) := by
  have ha4 : (((p.r : Int) - (prev.r : Int) + 2) % 256).toNat < 4 := emod256_toNat_lt hdr
  have hb4 : (((p.g : Int) - (prev.g : Int) + 2) % 256).toNat < 4 := emod256_toNat_lt hdg
  have hc4 : (((p.b : Int) - (prev.b : Int) + 2) % 256).toNat < 4 := emod256_toNat_lt hdb
  obtain ⟨hne255, hne254, hmask, hex1, hex2, hex3, hne0⟩ :=
    diffByteFacts _ _ _ ha4 hb4 hc4
  rw [chunkBytes, QOI_OP_DIFF]
  simp only [List.cons_append, List.nil_append]
  rw [QoiDecoder.decode]
  rw [if_pos (by simp only [List.length_cons]; omega)]
  rw [if_neg (take8_ne_marker _ hne0)]
  simp only [List.getD_cons_zero, QOI_OP_RGBA, QOI_OP_RGB, QOI_OP_MASK,
    QOI_OP_INDEX, QOI_OP_DIFF]
  rw [if_neg hne255, if_neg hne254, if_neg (by rw [hmask]; decide), if_pos hmask]
  rw [hex1, hex2, hex3]
  have e1 : ((((⟨prev, cache⟩ : DecSt).current_pixel.r : Int) +
      (((((p.r : Int) - (prev.r : Int) + 2) % 256).toNat : Int) - 2)) % 256).toNat = p.r := by
    show ((((prev.r : Nat) : Int) +
      (((((p.r : Int) - (prev.r : Int) + 2) % 256).toNat : Int) - 2)) % 256).toNat = p.r
    obtain ⟨h1, -, -, -⟩ := hpv
    obtain ⟨h2, -, -, -⟩ := hprevv
    omega
  have e2 : ((((⟨prev, cache⟩ : DecSt).current_pixel.g : Int) +
      (((((p.g : Int) - (prev.g : Int) + 2) % 256).toNat : Int) - 2)) % 256).toNat = p.g := by
    show ((((prev.g : Nat) : Int) +
      (((((p.g : Int) - (prev.g : Int) + 2) % 256).toNat : Int) - 2)) % 256).toNat = p.g
    obtain ⟨-, h1, -, -⟩ := hpv
    obtain ⟨-, h2, -, -⟩ := hprevv
    omega
  have e3 : ((((⟨prev, cache⟩ : DecSt).current_pixel.b : Int) +
      (((((p.b : Int) - (prev.b : Int) + 2) % 256).toNat : Int) - 2)) % 256).toNat = p.b := by
    show ((((prev.b : Nat) : Int) +
      (((((p.b : Int) - (prev.b : Int) + 2) % 256).toNat : Int) - 2)) % 256).toNat = p.b
    obtain ⟨-, -, h1, -⟩ := hpv
    obtain ⟨-, -, h2, -⟩ := hprevv
    omega
  rw [e1, e2, e3]
  have hp : (⟨p.r, p.g, p.b, (⟨prev, cache⟩ : DecSt).current_pixel.a⟩ : Pix) = p := by
    show (⟨p.r, p.g, p.b, prev.a⟩ : Pix) = p
    rw [← ha]
  rw [hp]
  rw [set_pixel, if_pos hcap]
  simp only [List.drop_succ_cons, List.drop_zero]

set_option maxHeartbeats 1600000 in
/-- Decoding a LUMA opcode emitted for the transition prev to p: the green
delta and the red and blue differences against it are recovered modulo 256 and
the decoder resolves exactly p. -/
theorem decode_step_luma (mode3 : Bool) (cap fuel i : Nat) (rest : List Nat)
    (cache : List Pix) (prev p : Pix) (out : List (List Nat))
    (hpv : p.Valid) (hprevv : prev.Valid) (ha : p.a = prev.a)
    (hdg : ((p.g : Int) - (prev.g : Int) + 32) % 256 < 64)
    (hdr : ((p.r : Int) - (prev.r : Int) - ((p.g : Int) - (prev.g : Int)) + 8) % 256 < 16)
    (hdb : ((p.b : Int) - (prev.b : Int) - ((p.g : Int) - (prev.g : Int)) + 8) % 256 < 16)
    (hrest : 8 ≤ rest.length) (hcap : out.length < cap) :
    QoiDecoder.decode mode3 cap (fuel + 1)
        (chunkBytes (Chunk.lumaC ((p.g : Int) - (prev.g : Int))
          ((p.r : Int) - (prev.r : Int)) ((p.b : Int) - (prev.b : Int))) ++ rest) i
        ⟨prev, cache⟩ out
      = QoiDecoder.decode mode3 cap fuel rest (i + 2)
          ⟨p, cacheSet cache (pixel_hash p) p⟩ (out ++ [emitPix mode3 p]) := by
  have hg64 : (((p.g : Int) - (prev.g : Int) + 32) % 256).toNat < 64 := emod256_toNat_lt hdg
  have hx16 : (((p.r : Int) - (prev.r : Int) - ((p.g : Int) - (prev.g : Int)) + 8) % 256).toNat < 16 :=
    emod256_toNat_lt hdr
  have hy16 : (((p.b : Int) - (prev.b : Int) - ((p.g : Int) - (prev.g : Int)) + 8) % 256).toNat < 16 :=
    emod256_toNat_lt hdb
  obtain ⟨hne255, hne254, hmask, hand63, hne0⟩ := lumaByteFacts _ hg64
  obtain ⟨hhi, hlo⟩ := lumaByte2Facts _ hx16 _ hy16
  rw [chunkBytes, QOI_OP_LUMA]
  simp only [List.cons_append, List.nil_append]
  rw [QoiDecoder.decode]
  rw [if_pos (by simp only [List.length_cons]; omega)]
  rw [if_neg (take8_ne_marker _ hne0)]
  simp only [List.getD_cons_zero, List.getD_cons_succ, QOI_OP_RGBA, QOI_OP_RGB,
    QOI_OP_MASK, QOI_OP_INDEX, QOI_OP_DIFF, QOI_OP_LUMA]
  rw [if_neg hne255, if_neg hne254, if_neg (by rw [hmask]; decide),
    if_neg (by rw [hmask]; decide), if_pos hmask]
  rw [hand63, hhi, hlo]
  have e1 : ((((⟨prev, cache⟩ : DecSt).current_pixel.r : Int) +
      (((((p.r : Int) - (prev.r : Int) - ((p.g : Int) - (prev.g : Int)) + 8) % 256).toNat : Int) - 8 +
        (((((p.g : Int) - (prev.g : Int) + 32) % 256).toNat : Int) - 32))) % 256).toNat = p.r := by
    show ((((prev.r : Nat) : Int) +
      (((((p.r : Int) - (prev.r : Int) - ((p.g : Int) - (prev.g : Int)) + 8) % 256).toNat : Int) - 8 +
        (((((p.g : Int) - (prev.g : Int) + 32) % 256).toNat : Int) - 32))) % 256).toNat = p.r
    obtain ⟨h1, h2, -, -⟩ := hpv
    obtain ⟨h3, h4, -, -⟩ := hprevv
    omega
  have e2 : ((((⟨prev, cache⟩ : DecSt).current_pixel.g : Int) +
      (((((p.g : Int) - (prev.g : Int) + 32) % 256).toNat : Int) - 32)) % 256).toNat = p.g := by
    show ((((prev.g : Nat) : Int) +
      (((((p.g : Int) - (prev.g : Int) + 32) % 256).toNat : Int) - 32)) % 256).toNat = p.g
    obtain ⟨-, h1, -, -⟩ := hpv
    obtain ⟨-, h2, -, -⟩ := hprevv
    omega
  have e3 : ((((⟨prev, cache⟩ : DecSt).current_pixel.b : Int) +
      (((((p.b : Int) - (prev.b : Int) - ((p.g : Int) - (prev.g : Int)) + 8) % 256).toNat : Int) - 8 +
        (((((p.g : Int) - (prev.g : Int) + 32) % 256).toNat : Int) - 32))) % 256).toNat = p.b := by
    show ((((prev.b : Nat) : Int) +
      (((((p.b : Int) - (prev.b : Int) - ((p.g : Int) - (prev.g : Int)) + 8) % 256).toNat : Int) - 8 +
        (((((p.g : Int) - (prev.g : Int) + 32) % 256).toNat : Int) - 32))) % 256).toNat = p.b
    obtain ⟨-, h1, h2, -⟩ := hpv
    obtain ⟨-, h3, h4, -⟩ := hprevv
    omega
  rw [e1, e2, e3]
  have hp : (⟨p.r, p.g, p.b, (⟨prev, cache⟩ : DecSt).current_pixel.a⟩ : Pix) = p := by
    show (⟨p.r, p.g, p.b, prev.a⟩ : Pix) = p
    rw [← ha]
  rw [hp]
  rw [set_pixel, if_pos hcap]
  rfl

/-! ## Encoder session facts -/

/-- Unfolding the per-pixel chunk stream. -/
theorem encRest_cons (st : EncSt) (p : Pix) (ps : List Pix) :
    encRest st (p :: ps) =
      chunksBytes (encStep st p).1 ++ encRest (encStep st p).2 ps := by
  show chunksBytes ((encStep st p).1 ++ (encChunks (encStep st p).2 ps).1) ++ _ = _
  rw [chunksBytes_append, List.append_assoc]
  rfl

/-- The tail state of the session fold. -/
theorem encChunks_cons_snd (st : EncSt) (p : Pix) (ps : List Pix) :
    (encChunks st (p :: ps)).2 = (encChunks (encStep st p).2 ps).2 := rfl

/-- The terminal emission for an exhausted pixel list. -/
theorem encRest_nil (st : EncSt) : encRest st [] = chunksBytes (encFinish st) := by
  show chunksBytes [] ++ chunksBytes (encFinish st) = chunksBytes (encFinish st)
  rw [chunksBytes]
  rfl

/-- One encoder step never grows the run counter past 61. -/
theorem encStep_run_le (st : EncSt) (p : Pix) (h : st.run ≤ 61) :
    (encStep st p).2.run ≤ 61 := by
  unfold encStep
  split_ifs with h1 h2 h3
  · exact Nat.zero_le _
  · show st.run + 1 ≤ 61
    omega
  · exact Nat.zero_le _
  · exact Nat.zero_le _


/-- One encoder step leaves the cache length unchanged. -/
theorem encStep_cache_length (st : EncSt) (p : Pix) :
    (encStep st p).2.cache.length = st.cache.length := by
  unfold encStep
  split_ifs <;> simp [cacheSet]

/-- The opcode selector never yields a RUN chunk. -/
theorem opSelect_ne_runC (st : EncSt) (p : Pix) (dr dg db : Int) (r : Nat) :
    opSelect st p dr dg db ≠ Chunk.runC r := by
  unfold opSelect
  split_ifs <;> simp

/-- Any RUN chunk inside one step carries a length between 1 and 62, given the
session invariant on the run counter. -/
theorem encStep_runC_bound (st : EncSt) (p : Pix) (hrun : st.run ≤ 61) (r : Nat)
    (hmem : Chunk.runC r ∈ (encStep st p).1) : 1 ≤ r ∧ r ≤ 62 := by
  unfold encStep at hmem
  split_ifs at hmem with h1 h2 h3
  · simp at hmem
    omega
  · simp at hmem
  · simp at hmem
    rcases hmem with hm | hm
    · omega
    · exact absurd hm.symm (opSelect_ne_runC st p _ _ _ r)
  · simp at hmem
    exact absurd hmem.symm (opSelect_ne_runC st p _ _ _ r)

/-- Session invariant: every RUN chunk the fold emits carries a length between
1 and 62, and the run counter stays at most 61. -/
theorem encChunks_runC_bound :
    ∀ (ps : List Pix) (st : EncSt), st.run ≤ 61 →
      ((encChunks st ps).2.run ≤ 61 ∧
        ∀ r, Chunk.runC r ∈ (encChunks st ps).1 → 1 ≤ r ∧ r ≤ 62) := by
  intro ps
  induction ps with
  | nil => intro st h; exact ⟨h, by intro r hr; simp [encChunks] at hr⟩
  | cons p ps ih =>
      intro st h
      have hstep := encStep_run_le st p h
      obtain ⟨h1, h2⟩ := ih (encStep st p).2 hstep
      refine ⟨h1, ?_⟩
      intro r hr
      rcases List.mem_append.1 hr with hm | hm
      · exact encStep_runC_bound st p h r hm
      · exact h2 r hm

/-- After a step that is not a run continuation, the predictor occupies its
own hash slot of the cache. -/
theorem encStep_cache_self (st : EncSt) (p : Pix) (hne : p ≠ st.previous_pixel)
    (hlen : st.cache.length = 64) :
    cacheGet (encStep st p).2.cache (pixel_hash (encStep st p).2.previous_pixel)
      = (encStep st p).2.previous_pixel := by
  unfold encStep
  rw [if_neg hne]
  exact cacheGet_cacheSet_self p (by rw [hlen]; exact pixel_hash_lt p)

/-- The first byte the encoder can still emit is never zero while the
predictor sits in cache slot of its own hash: a zero head byte would be an
INDEX chunk for slot of hash zero, whose pixel would have to equal the
predictor, contradicting the non-run condition.  The default head value 1
covers the empty stream. -/
theorem encRest_headD_ne_zero :
    ∀ (ps : List Pix) (st : EncSt), st.run ≤ 61 →
      cacheGet st.cache 0 = st.previous_pixel →
      (encRest st ps).headD 1 ≠ 0 := by
  intro ps
  induction ps with
  | nil =>
      intro st hrun hself
      rw [encRest_nil, encFinish]
      by_cases hz : st.run ≠ 0
      · rw [if_pos hz, chunksBytes, chunkBytes, QOI_OP_RUN]
        simp only [List.cons_append, List.nil_append, List.headD_cons]
        exact (runByteFacts (st.run - 1) (by omega)).2.2.2.2.1
      · rw [if_neg hz, chunksBytes]
        simp
  | cons p ps ih =>
      intro st hrun hself
      rw [encRest_cons]
      by_cases heq : p = st.previous_pixel
      · by_cases hover : st.run + 1 > 61
        · have hs : (encStep st p).1 = [Chunk.runC (st.run + 1)] := by
            unfold encStep
            rw [if_pos heq, if_pos hover]
          rw [hs, chunksBytes, chunkBytes, QOI_OP_RUN, chunksBytes]
          simp only [List.append_nil, List.cons_append, List.headD_cons]
          exact (runByteFacts (st.run + 1 - 1) (by omega)).2.2.2.2.1
        · have hs : (encStep st p).1 = [] := by
            unfold encStep
            rw [if_pos heq, if_neg hover]
          have hs2 : (encStep st p).2 = ⟨st.previous_pixel, st.cache, st.run + 1⟩ := by
            unfold encStep
            rw [if_pos heq, if_neg hover]
          rw [hs, chunksBytes, List.nil_append, hs2]
          exact ih ⟨st.previous_pixel, st.cache, st.run + 1⟩ (show st.run + 1 ≤ 61 by omega) hself
      · have hs : (encStep st p).1 =
            (if st.run ≠ 0 then [Chunk.runC st.run] else []) ++
              [opSelect st p ((p.r : Int) - (st.previous_pixel.r : Int))
                ((p.g : Int) - (st.previous_pixel.g : Int))
                ((p.b : Int) - (st.previous_pixel.b : Int))] := by
          unfold encStep
          rw [if_neg heq]
        rw [hs]
        by_cases hz : st.run ≠ 0
        · rw [if_pos hz]
          rw [chunksBytes_append, chunksBytes, chunkBytes, QOI_OP_RUN, chunksBytes]
          simp only [List.append_nil, List.cons_append, List.headD_cons]
          exact (runByteFacts (st.run - 1) (by omega)).2.2.2.2.1
        · rw [if_neg hz, List.nil_append]
          rw [chunksBytes, chunksBytes, List.append_nil]
          set dr : Int := (p.r : Int) - (st.previous_pixel.r : Int) with hdr
          set dg : Int := (p.g : Int) - (st.previous_pixel.g : Int) with hdg
          set db : Int := (p.b : Int) - (st.previous_pixel.b : Int) with hdb
          unfold opSelect
          split_ifs with c1 c2 c3 c4
          · rw [chunkBytes, QOI_OP_INDEX]
            simp only [List.cons_append, List.headD_cons]
            rw [(indexByteFacts (pixel_hash p) (pixel_hash_lt p)).1]
            intro h0
            rw [h0] at c1
            exact heq (c1.trans hself)
          · rw [chunkBytes, QOI_OP_DIFF]
            simp only [List.cons_append, List.headD_cons]
            exact (diffByteFacts _ _ _ (emod256_toNat_lt c2.2.1)
              (emod256_toNat_lt c2.2.2.1) (emod256_toNat_lt c2.2.2.2)).2.2.2.2.2.2
          · rw [chunkBytes, QOI_OP_LUMA]
            simp only [List.cons_append, List.headD_cons]
            exact (lumaByteFacts _ (emod256_toNat_lt c3.2.1)).2.2.2.2
          · rw [chunkBytes, QOI_OP_RGB]
            simp only [List.cons_append, List.headD_cons]
            decide
          · rw [chunkBytes, QOI_OP_RGBA]
            simp only [List.cons_append, List.headD_cons]
            decide

/-- Decoding the opcode the encoder selects for a non-run pixel p always
resolves p, emits it, and writes its hash slot: the five selector branches
reduce to the five opcode lemmas.  The corner hypothesis rules out a
false end-marker match when the INDEX byte is zero. -/
theorem decode_step_op (mode3 : Bool) (cap fuel i : Nat) (rest : List Nat)
    (st : EncSt) (p : Pix) (out : List (List Nat))
    (hpv : p.Valid) (hprevv : st.previous_pixel.Valid)
    (hrest : 8 ≤ rest.length) (hcap : out.length < cap)
    (hcorner : pixel_hash p = 0 → rest.take 7 ≠ [0, 0, 0, 0, 0, 0, 1]) :
    QoiDecoder.decode mode3 cap (fuel + 1)
        (chunkBytes (opSelect st p ((p.r : Int) - (st.previous_pixel.r : Int))
          ((p.g : Int) - (st.previous_pixel.g : Int))
          ((p.b : Int) - (st.previous_pixel.b : Int))) ++ rest) i
        ⟨st.previous_pixel, st.cache⟩ out
      = QoiDecoder.decode mode3 cap fuel rest
          (i + (chunkBytes (opSelect st p ((p.r : Int) - (st.previous_pixel.r : Int))
            ((p.g : Int) - (st.previous_pixel.g : Int))
            ((p.b : Int) - (st.previous_pixel.b : Int)))).length)
          ⟨p, cacheSet st.cache (pixel_hash p) p⟩ (out ++ [emitPix mode3 p]) := by
  unfold opSelect
  split_ifs with c1 c2 c3 c4
  · have hmarker : (chunkBytes (Chunk.indexC (pixel_hash p)) ++ rest).take 8 ≠
        QOI_EOF_MARKER := by
      rw [chunkBytes, QOI_OP_INDEX]
      rw [(indexByteFacts (pixel_hash p) (pixel_hash_lt p)).1]
      by_cases h0 : pixel_hash p = 0
      · rw [h0]
        simp only [List.cons_append, List.nil_append, List.take_succ_cons, QOI_EOF_MARKER]
        intro hcontra
        have := List.tail_eq_of_cons_eq hcontra
        exact hcorner h0 this
      · exact take8_ne_marker _ h0
    have := decode_step_index mode3 cap fuel i rest ⟨st.previous_pixel, st.cache⟩ out
      (pixel_hash p) (pixel_hash_lt p) hrest hmarker hcap
    rw [this]
    rw [show cacheGet (⟨st.previous_pixel, st.cache⟩ : DecSt).cache (pixel_hash p) = p
      from c1.symm]
    rw [chunkBytes, QOI_OP_INDEX]
    rfl
  · have := decode_step_diff mode3 cap fuel i rest st.cache st.previous_pixel p out
      hpv hprevv c2.1 c2.2.1 c2.2.2.1 c2.2.2.2 hrest hcap
    rw [this, chunkBytes]
    rfl
  · have := decode_step_luma mode3 cap fuel i rest st.cache st.previous_pixel p out
      hpv hprevv c3.1 c3.2.1 c3.2.2.1 c3.2.2.2 hrest hcap
    rw [this, chunkBytes]
    rfl
  · have := decode_step_rgb mode3 cap fuel i rest st.cache st.previous_pixel p out
      c4 hrest hcap
    rw [this, chunkBytes]
    rfl
  · have := decode_step_rgba mode3 cap fuel i rest st.cache st.previous_pixel p out
      hrest hcap
    rw [this, chunkBytes]
    rfl

/-- Main decoding invariant: from coupled states (the decoder current pixel is
the encoder predictor and the caches agree), decoding the remaining session
bytes followed by the end marker terminates at the marker having emitted the
pending run and every remaining pixel, with the decoder state tracking the
encoder state. -/
theorem decode_encRest (mode3 : Bool) (cap : Nat) :
    ∀ (ps : List Pix) (st : EncSt) (out : List (List Nat)) (i fuel : Nat),
      st.previous_pixel.Valid →
      (∀ p ∈ ps, p.Valid) →
      st.cache.length = 64 →
      st.run ≤ 61 →
      out.length + st.run + ps.length = cap →
      (encRest st ps).length + 9 ≤ fuel →
      QoiDecoder.decode mode3 cap fuel (encRest st ps ++ QOI_EOF_MARKER) i
          ⟨st.previous_pixel, st.cache⟩ out
        = DecRes.ok true (i + (encRest st ps).length)
            ⟨(encChunks st ps).2.previous_pixel, (encChunks st ps).2.cache⟩
            (out ++ (List.replicate st.run st.previous_pixel ++ ps).map (emitPix mode3)) := by
  intro ps
  induction ps with
  | nil =>
      intro st out i fuel hprevv hv hlen hrun hcount hfuel
      obtain ⟨f, rfl⟩ : ∃ f, fuel = f + 1 := ⟨fuel - 1, by omega⟩
      rw [encRest_nil, encFinish]
      by_cases hz : st.run ≠ 0
      · rw [if_pos hz]
        rw [chunksBytes, chunksBytes, List.append_nil]
        have hlen1 : (chunkBytes (Chunk.runC st.run)).length = 1 := by
          rw [chunkBytes]
          rfl
        rw [decode_step_run mode3 cap f i QOI_EOF_MARKER ⟨st.previous_pixel, st.cache⟩
          out st.run (by omega) (by omega) (by rw [QOI_EOF_MARKER]; rfl)
          (by simp at hcount ⊢; omega)]
        obtain ⟨f2, rfl⟩ : ∃ f2, f = f2 + 1 := ⟨f - 1, by omega⟩
        rw [decode_at_marker]
        rw [hlen1]
        rw [encChunks]
        simp [List.map_replicate]
      · rw [if_neg hz]
        rw [chunksBytes, List.nil_append]
        rw [decode_at_marker]
        rw [encChunks]
        have hz0 : st.run = 0 := by omega
        simp [hz0]
  | cons p ps ih =>
      intro st out i fuel hprevv hv hlen hrun hcount hfuel
      have hpv : p.Valid := hv p (List.mem_cons_self p ps)
      have hv' : ∀ q ∈ ps, q.Valid := fun q hq => hv q (List.mem_cons_of_mem p hq)
      have hcount' : out.length + st.run + (ps.length + 1) = cap := by
        simpa using hcount
      by_cases heq : p = st.previous_pixel
      · by_cases hover : st.run + 1 > 61
        · have hs1 : (encStep st p).1 = [Chunk.runC (st.run + 1)] := by
            unfold encStep
            rw [if_pos heq, if_pos hover]
          have hs2 : (encStep st p).2 = ⟨st.previous_pixel, st.cache, 0⟩ := by
            unfold encStep
            rw [if_pos heq, if_pos hover]
          have hrw : encRest st (p :: ps) =
              chunkBytes (Chunk.runC (st.run + 1)) ++
                encRest ⟨st.previous_pixel, st.cache, 0⟩ ps := by
            rw [encRest_cons, hs1, hs2, chunksBytes, chunksBytes, List.append_nil]
          rw [hrw] at hfuel ⊢
          rw [encChunks_cons_snd, hs2]
          have hlen1 : (chunkBytes (Chunk.runC (st.run + 1))).length = 1 := by
            rw [chunkBytes]
            rfl
          rw [List.length_append, hlen1] at hfuel
          obtain ⟨f, rfl⟩ : ∃ f, fuel = f + 1 := ⟨fuel - 1, by omega⟩
          rw [List.append_assoc]
          rw [decode_step_run mode3 cap f i _ ⟨st.previous_pixel, st.cache⟩ out (st.run + 1)
            (by omega) (by omega)
            (by simp [QOI_EOF_MARKER])
            (by omega)]
          rw [ih ⟨st.previous_pixel, st.cache, 0⟩ _ (i + 1) f hprevv hv' hlen (Nat.zero_le _)
            (by simp
                omega)
            (by omega)]
          congr 1
          · rw [List.length_append, hlen1]
            omega
          · simp only [List.replicate_zero, List.nil_append, List.map_append,
              List.map_replicate, List.map_cons, List.append_assoc, heq]
            rw [List.replicate_succ']
            simp [List.append_assoc]
        · have hs1 : (encStep st p).1 = [] := by
            unfold encStep
            rw [if_pos heq, if_neg hover]
          have hs2 : (encStep st p).2 = ⟨st.previous_pixel, st.cache, st.run + 1⟩ := by
            unfold encStep
            rw [if_pos heq, if_neg hover]
          have hrw : encRest st (p :: ps) =
              encRest ⟨st.previous_pixel, st.cache, st.run + 1⟩ ps := by
            rw [encRest_cons, hs1, hs2, chunksBytes, List.nil_append]
          rw [hrw] at hfuel ⊢
          rw [encChunks_cons_snd, hs2]
          rw [ih ⟨st.previous_pixel, st.cache, st.run + 1⟩ out i fuel hprevv hv' hlen
            (by show st.run + 1 ≤ 61
                omega)
            (by show out.length + (st.run + 1) + ps.length = cap
                omega)
            hfuel]
          congr 1
          simp only [List.map_append, List.map_replicate, List.map_cons, heq]
          rw [List.replicate_succ']
          simp [List.append_assoc]
      · have hs1 : (encStep st p).1 =
            (if st.run ≠ 0 then [Chunk.runC st.run] else []) ++
              [opSelect st p ((p.r : Int) - (st.previous_pixel.r : Int))
                ((p.g : Int) - (st.previous_pixel.g : Int))
                ((p.b : Int) - (st.previous_pixel.b : Int))] := by
          unfold encStep
          rw [if_neg heq]
        have hs2 : (encStep st p).2 = ⟨p, cacheSet st.cache (pixel_hash p) p, 0⟩ := by
          unfold encStep
          rw [if_neg heq]
        have hcacheLen : (cacheSet st.cache (pixel_hash p) p).length = 64 := by
          rw [cacheSet_length]
          exact hlen
        have hcorner : pixel_hash p = 0 →
            (encRest ⟨p, cacheSet st.cache (pixel_hash p) p, 0⟩ ps ++ QOI_EOF_MARKER).take 7 ≠
              [0, 0, 0, 0, 0, 0, 1] := by
          intro h0
          have hhd := encRest_headD_ne_zero ps ⟨p, cacheSet st.cache (pixel_hash p) p, 0⟩
            (Nat.zero_le _)
            (by show cacheGet (cacheSet st.cache (pixel_hash p) p) 0 = p
                rw [← h0]
                exact cacheGet_cacheSet_self p (by rw [hlen]; exact pixel_hash_lt p))
          cases hE : encRest ⟨p, cacheSet st.cache (pixel_hash p) p, 0⟩ ps with
          | nil =>
              rw [List.nil_append, QOI_EOF_MARKER]
              decide
          | cons b l =>
              rw [hE] at hhd
              rw [List.cons_append, List.take_succ_cons]
              intro hcontra
              rw [List.headD_cons] at hhd
              exact hhd (List.head_eq_of_cons_eq hcontra)
        have hKpos : 1 ≤ (chunkBytes (opSelect st p ((p.r : Int) - (st.previous_pixel.r : Int))
            ((p.g : Int) - (st.previous_pixel.g : Int))
            ((p.b : Int) - (st.previous_pixel.b : Int)))).length := by
          cases opSelect st p ((p.r : Int) - (st.previous_pixel.r : Int))
              ((p.g : Int) - (st.previous_pixel.g : Int))
              ((p.b : Int) - (st.previous_pixel.b : Int)) <;>
            simp [chunkBytes]
        by_cases hz : st.run ≠ 0
        · have hrw : encRest st (p :: ps) =
              chunkBytes (Chunk.runC st.run) ++
                (chunkBytes (opSelect st p ((p.r : Int) - (st.previous_pixel.r : Int))
                  ((p.g : Int) - (st.previous_pixel.g : Int))
                  ((p.b : Int) - (st.previous_pixel.b : Int))) ++
                  encRest ⟨p, cacheSet st.cache (pixel_hash p) p, 0⟩ ps) := by
            rw [encRest_cons, hs1, hs2, if_pos hz]
            simp [chunksBytes_append, chunksBytes, List.append_assoc]
          rw [hrw] at hfuel ⊢
          rw [encChunks_cons_snd, hs2]
          have hlen1 : (chunkBytes (Chunk.runC st.run)).length = 1 := by
            rw [chunkBytes]
            rfl
          rw [List.length_append, List.length_append, hlen1] at hfuel
          obtain ⟨f, rfl⟩ : ∃ f, fuel = f + 1 := ⟨fuel - 1, by omega⟩
          obtain ⟨f2, rfl⟩ : ∃ f2, f = f2 + 1 := ⟨f - 1, by omega⟩
          rw [List.append_assoc, List.append_assoc]
          rw [decode_step_run mode3 cap (f2 + 1) i _ ⟨st.previous_pixel, st.cache⟩ out st.run
            (by omega) (by omega)
            (by simp [QOI_EOF_MARKER]
                omega)
            (by omega)]
          rw [decode_step_op mode3 cap f2 (i + 1) _ st p _ hpv hprevv
            (by simp [QOI_EOF_MARKER])
            (by simp
                omega)
            hcorner]
          rw [ih ⟨p, cacheSet st.cache (pixel_hash p) p, 0⟩ _ _ f2 hpv hv' hcacheLen
            (Nat.zero_le _)
            (by simp
                omega)
            (by omega)]
          congr 1
          · simp only [List.length_append, hlen1]
            omega
          · simp only [List.replicate_zero, List.nil_append, List.map_append,
              List.map_replicate, List.map_cons, List.append_assoc, List.singleton_append]
        · have hrw : encRest st (p :: ps) =
              chunkBytes (opSelect st p ((p.r : Int) - (st.previous_pixel.r : Int))
                ((p.g : Int) - (st.previous_pixel.g : Int))
                ((p.b : Int) - (st.previous_pixel.b : Int))) ++
                encRest ⟨p, cacheSet st.cache (pixel_hash p) p, 0⟩ ps := by
            rw [encRest_cons, hs1, hs2, if_neg hz]
            simp [chunksBytes_append, chunksBytes, List.append_assoc]
          rw [hrw] at hfuel ⊢
          rw [encChunks_cons_snd, hs2]
          rw [List.length_append] at hfuel
          obtain ⟨f, rfl⟩ : ∃ f, fuel = f + 1 := ⟨fuel - 1, by omega⟩
          rw [List.append_assoc]
          rw [decode_step_op mode3 cap f i _ st p _ hpv hprevv
            (by simp [QOI_EOF_MARKER])
            (by omega)
            hcorner]
          rw [ih ⟨p, cacheSet st.cache (pixel_hash p) p, 0⟩ _ _ f hpv hv' hcacheLen
            (Nat.zero_le _)
            (by simp
                omega)
            (by omega)]
          congr 1
          · simp only [List.length_append]
            omega
          · have hz0 : st.run = 0 := by omega
            simp only [hz0, List.replicate_zero, List.nil_append, List.map_append,
              List.map_replicate, List.map_cons, List.append_assoc, List.singleton_append]

/-! ## The bounded encoder against the chunk stream -/

/-- The pixels of the image in scan order, alpha-extended as the encoder
reads them. -/
def pixList (img : Img) : List Pix := img.data.map toPix4

/-- Linear scan position of an encoder state. -/
def encPos (img : Img) (st : EncIOSt) : Nat := st.y * img.width + st.x

/-- The pixels the encoder has not consumed yet. -/
def remPix (img : Img) (st : EncIOSt) : List Pix := (pixList img).drop (encPos img st)

/-- The opcode-selection projection of the full encoder state. -/
def projSt (st : EncIOSt) : EncSt := ⟨st.previous_pixel, st.cache, st.run⟩

/-- Consistency of the scan fields of an encoder state. -/
def EncInv (img : Img) (st : EncIOSt) : Prop :=
  st.x < img.width ∧ st.eof = decide (img.height ≤ st.y)

/-- One step emits at most 6 bytes: at most one flush byte and at most a
5-byte RGBA opcode. -/
theorem encStep_bytes_le (st : EncSt) (p : Pix) :
    (chunksBytes (encStep st p).1).length ≤ 6 := by
  unfold encStep
  split_ifs with h1 h2 h3
  · simp [chunksBytes, chunkBytes]
  · simp [chunksBytes]
  · dsimp only
    cases opSelect st p ((p.r : Int) - (st.previous_pixel.r : Int))
        ((p.g : Int) - (st.previous_pixel.g : Int))
        ((p.b : Int) - (st.previous_pixel.b : Int)) <;>
      simp [chunksBytes_append, chunksBytes, chunkBytes]
  · dsimp only
    cases opSelect st p ((p.r : Int) - (st.previous_pixel.r : Int))
        ((p.g : Int) - (st.previous_pixel.g : Int))
        ((p.b : Int) - (st.previous_pixel.b : Int)) <;>
      simp [chunksBytes_append, chunksBytes, chunkBytes]

/-- Under the scan invariant, the eof flag means the pixels are exhausted. -/
theorem eof_iff_remPix_nil (img : Img) (st : EncIOSt)
    (hwd : img.width * img.height = img.data.length)
    (hinv : EncInv img st) :
    st.eof = true ↔ remPix img st = [] := by
  obtain ⟨hx, heof⟩ := hinv
  rw [heof]
  rw [remPix, List.drop_eq_nil_iff]
  rw [pixList, List.length_map, ← hwd, encPos]
  constructor
  · intro h
    have : img.height ≤ st.y := by simpa using h
    calc img.width * img.height ≤ img.width * st.y := by
          exact Nat.mul_le_mul_left _ this
      _ = st.y * img.width := Nat.mul_comm _ _
      _ ≤ st.y * img.width + st.x := Nat.le_add_right _ _
  · intro h
    simp only [decide_eq_true_eq]
    by_contra hlt
    push_neg at hlt
    have h1 : st.y * img.width + st.x + 1 ≤ img.width * img.height := by
      have h2 : st.y + 1 ≤ img.height := hlt
      calc st.y * img.width + st.x + 1 ≤ st.y * img.width + img.width := by omega
        _ = (st.y + 1) * img.width := by ring
        _ ≤ img.height * img.width := Nat.mul_le_mul_right _ h2
        _ = img.width * img.height := Nat.mul_comm _ _
    omega

/-- Advancing from an in-range position increments the linear position. -/
theorem encPos_advance (img : Img) (st : EncIOSt) (hx : st.x < img.width) :
    encPos img (advance_pixel img st) = encPos img st + 1 := by
  unfold advance_pixel encPos
  by_cases h : st.x + 1 ≥ img.width
  · rw [if_pos h]
    simp only
    have : st.x + 1 = img.width := by omega
    calc (st.y + 1) * img.width + 0 = st.y * img.width + img.width := by ring
      _ = st.y * img.width + st.x + 1 := by omega
  · rw [if_neg h]
    rfl

/-- Advancing preserves the scan invariant. -/
theorem encInv_advance (img : Img) (st : EncIOSt) (hw : 0 < img.width) :
    EncInv img (advance_pixel img st) := by
  unfold advance_pixel EncInv
  by_cases h : st.x + 1 ≥ img.width
  · rw [if_pos h]
    exact ⟨hw, rfl⟩
  · rw [if_neg h]
    exact ⟨show st.x + 1 < img.width by omega, rfl⟩

/-- Splitting off the pixel at the scan position. -/
theorem remPix_cons (img : Img) (st : EncIOSt)
    (h : encPos img st < img.data.length) :
    remPix img st = toPix4 (img.data.getD (encPos img st) []) ::
      (pixList img).drop (encPos img st + 1) := by
  rw [remPix, pixList]
  rw [List.drop_eq_getElem_cons (by rw [List.length_map]; exact h)]
  rw [List.getElem_map]
  rw [List.getD_eq_getElem img.data [] h]

/-- Specification of one bounded encode call: it returns the written prefix,
preserves the scan invariant, advances the position (strictly if a pixel fits
in the buffer), emits exactly a prefix of the pending session byte stream,
and reaches eof whenever the buffer is large enough for everything. -/
theorem encodeLoop_spec (img : Img) (bufsize : Nat)
    (hwd : img.width * img.height = img.data.length) (hw : 0 < img.width) :
    ∀ (fuel : Nat) (st : EncIOSt) (out : List Nat),
      EncInv img st →
      (remPix img st).length + 1 ≤ fuel →
      out.length < bufsize →
      ∃ bytes st',
        QoiEncoder.encodeLoop img bufsize fuel st out = some (out ++ bytes, st') ∧
        EncInv img st' ∧
        encPos img st ≤ encPos img st' ∧
        (st.eof = false → out.length + 6 < bufsize → encPos img st + 1 ≤ encPos img st') ∧
        encRest (projSt st) (remPix img st)
          = bytes ++ (if st'.eof = true then [] else encRest (projSt st') (remPix img st')) ∧
        (out.length + 6 * (remPix img st).length + 7 ≤ bufsize → st'.eof = true) := by
  intro fuel
  induction fuel with
  | zero =>
      intro st out hinv hfuel hout
      omega
  | succ f ihf =>
      intro st out hinv hfuel hout
      by_cases heof : st.eof = true
      · have hrem : remPix img st = [] := (eof_iff_remPix_nil img st hwd hinv).1 heof
        rw [QoiEncoder.encodeLoop]
        rw [if_neg (by rw [heof]; simp)]
        by_cases hz : st.run ≠ 0
        · rw [if_pos ⟨heof, hz⟩, if_pos hout]
          refine ⟨[QOI_OP_RUN ||| (st.run - 1)], st, rfl, hinv, Nat.le_refl _, ?_, ?_, ?_⟩
          · intro hc
            rw [heof] at hc
            cases hc
          · rw [hrem, encRest_nil, encFinish]
            rw [show (projSt st).run = st.run from rfl]
            rw [if_pos hz, heof]
            simp [chunksBytes, chunkBytes]
          · intro _
            exact heof
        · rw [if_neg (fun hc => hz hc.2)]
          refine ⟨[], st, by simp, hinv, Nat.le_refl _, ?_, ?_, ?_⟩
          · intro hc
            rw [heof] at hc
            cases hc
          · rw [hrem, encRest_nil, encFinish]
            rw [show (projSt st).run = st.run from rfl]
            rw [if_neg hz, heof]
            simp [chunksBytes]
          · intro _
            exact heof
      · rw [Bool.not_eq_true] at heof
        have hx := hinv.1
        have hy : st.y < img.height := by
          have h2 := hinv.2
          rw [heof] at h2
          have h3 : ¬ img.height ≤ st.y := by
            intro hc
            rw [decide_eq_true hc] at h2
            cases h2
          omega
        have hpos : encPos img st < img.data.length := by
          rw [← hwd, encPos]
          calc st.y * img.width + st.x < st.y * img.width + img.width := by omega
            _ = (st.y + 1) * img.width := by ring
            _ ≤ img.height * img.width := Nat.mul_le_mul_right _ (by omega)
            _ = img.width * img.height := Nat.mul_comm _ _
        have hremc := remPix_cons img st hpos
        rw [QoiEncoder.encodeLoop]
        by_cases hguard : out.length + 6 < bufsize
        · rw [if_pos ⟨heof, hguard⟩]
          rw [Img.getpixel, if_pos ⟨hx, hy⟩]
          have hstep := encStep_bytes_le ⟨st.previous_pixel, st.cache, st.run⟩
            (toPix4 (img.data.getD (st.y * img.width + st.x) []))
          have hinvA := encInv_advance img st hw
          have hposA := encPos_advance img st hx
          obtain ⟨bytes', st'', hres, hinv'', hpos'', hprog'', hcomp'', hbig''⟩ :=
            ihf ⟨(encStep ⟨st.previous_pixel, st.cache, st.run⟩
                (toPix4 (img.data.getD (st.y * img.width + st.x) []))).2.previous_pixel,
              (encStep ⟨st.previous_pixel, st.cache, st.run⟩
                (toPix4 (img.data.getD (st.y * img.width + st.x) []))).2.cache,
              (advance_pixel img st).x, (advance_pixel img st).y,
              (encStep ⟨st.previous_pixel, st.cache, st.run⟩
                (toPix4 (img.data.getD (st.y * img.width + st.x) []))).2.run,
              (advance_pixel img st).eof⟩
              (out ++ chunksBytes (encStep ⟨st.previous_pixel, st.cache, st.run⟩
                (toPix4 (img.data.getD (st.y * img.width + st.x) []))).1)
              ⟨hinvA.1, hinvA.2⟩
              (by show (remPix img _).length + 1 ≤ f
                  rw [show remPix img
                      ⟨(encStep ⟨st.previous_pixel, st.cache, st.run⟩
                        (toPix4 (img.data.getD (st.y * img.width + st.x) []))).2.previous_pixel,
                      (encStep ⟨st.previous_pixel, st.cache, st.run⟩
                        (toPix4 (img.data.getD (st.y * img.width + st.x) []))).2.cache,
                      (advance_pixel img st).x, (advance_pixel img st).y,
                      (encStep ⟨st.previous_pixel, st.cache, st.run⟩
                        (toPix4 (img.data.getD (st.y * img.width + st.x) []))).2.run,
                      (advance_pixel img st).eof⟩ =
                    (pixList img).drop (encPos img st + 1) by
                    rw [remPix]
                    rw [show encPos img
                        ⟨(encStep ⟨st.previous_pixel, st.cache, st.run⟩
                          (toPix4 (img.data.getD (st.y * img.width + st.x) []))).2.previous_pixel,
                        (encStep ⟨st.previous_pixel, st.cache, st.run⟩
                          (toPix4 (img.data.getD (st.y * img.width + st.x) []))).2.cache,
                        (advance_pixel img st).x, (advance_pixel img st).y,
                        (encStep ⟨st.previous_pixel, st.cache, st.run⟩
                          (toPix4 (img.data.getD (st.y * img.width + st.x) []))).2.run,
                        (advance_pixel img st).eof⟩ = encPos img (advance_pixel img st)
                      from rfl]
                    rw [hposA]]
                  have : (remPix img st).length =
                      ((pixList img).drop (encPos img st + 1)).length + 1 := by
                    rw [hremc]
                    rfl
                  omega)
              (by rw [List.length_append]
                  omega)
          refine ⟨chunksBytes (encStep ⟨st.previous_pixel, st.cache, st.run⟩
              (toPix4 (img.data.getD (st.y * img.width + st.x) []))).1 ++ bytes', st'', ?_,
            hinv'', ?_, ?_, ?_, ?_⟩
          · rw [← List.append_assoc]
            exact hres
          · calc encPos img st ≤ encPos img st + 1 := Nat.le_succ _
              _ = encPos img (advance_pixel img st) := hposA.symm
              _ ≤ encPos img st'' := hpos''
          · intro _ _
            calc encPos img st + 1 = encPos img (advance_pixel img st) := hposA.symm
              _ ≤ encPos img st'' := hpos''
          · rw [show projSt ⟨(encStep ⟨st.previous_pixel, st.cache, st.run⟩
                (toPix4 (img.data.getD (st.y * img.width + st.x) []))).2.previous_pixel,
                (encStep ⟨st.previous_pixel, st.cache, st.run⟩
                  (toPix4 (img.data.getD (st.y * img.width + st.x) []))).2.cache,
                (advance_pixel img st).x, (advance_pixel img st).y,
                (encStep ⟨st.previous_pixel, st.cache, st.run⟩
                  (toPix4 (img.data.getD (st.y * img.width + st.x) []))).2.run,
                (advance_pixel img st).eof⟩ =
              (encStep ⟨st.previous_pixel, st.cache, st.run⟩
                (toPix4 (img.data.getD (st.y * img.width + st.x) []))).2 from rfl] at hcomp''
            rw [show remPix img ⟨(encStep ⟨st.previous_pixel, st.cache, st.run⟩
                (toPix4 (img.data.getD (st.y * img.width + st.x) []))).2.previous_pixel,
                (encStep ⟨st.previous_pixel, st.cache, st.run⟩
                  (toPix4 (img.data.getD (st.y * img.width + st.x) []))).2.cache,
                (advance_pixel img st).x, (advance_pixel img st).y,
                (encStep ⟨st.previous_pixel, st.cache, st.run⟩
                  (toPix4 (img.data.getD (st.y * img.width + st.x) []))).2.run,
                (advance_pixel img st).eof⟩ =
              (pixList img).drop (encPos img (advance_pixel img st)) from rfl] at hcomp''
            rw [hposA] at hcomp''
            have hcomp2 : encRest (encStep ⟨st.previous_pixel, st.cache, st.run⟩
                (toPix4 (img.data.getD (encPos img st) []))).2
                ((pixList img).drop (encPos img st + 1))
                = bytes' ++ (if st''.eof = true then []
                    else encRest (projSt st'') (remPix img st'')) := hcomp''
            rw [hremc, encRest_cons]
            rw [show projSt st = ⟨st.previous_pixel, st.cache, st.run⟩ from rfl]
            rw [hcomp2]
            rw [List.append_assoc]
            rfl
          · intro hbuf
            apply hbig''
            rw [List.length_append]
            rw [show remPix img ⟨(encStep ⟨st.previous_pixel, st.cache, st.run⟩
                (toPix4 (img.data.getD (st.y * img.width + st.x) []))).2.previous_pixel,
                (encStep ⟨st.previous_pixel, st.cache, st.run⟩
                  (toPix4 (img.data.getD (st.y * img.width + st.x) []))).2.cache,
                (advance_pixel img st).x, (advance_pixel img st).y,
                (encStep ⟨st.previous_pixel, st.cache, st.run⟩
                  (toPix4 (img.data.getD (st.y * img.width + st.x) []))).2.run,
                (advance_pixel img st).eof⟩ =
              (pixList img).drop (encPos img (advance_pixel img st)) from rfl]
            rw [hposA]
            have hlenrem : (remPix img st).length =
                ((pixList img).drop (encPos img st + 1)).length + 1 := by
              rw [hremc]
              rfl
            omega
        · rw [if_neg (by intro hc; exact hguard hc.2)]
          rw [if_neg (by intro hc; rw [heof] at hc; cases hc.1)]
          refine ⟨[], st, by simp, hinv, Nat.le_refl _, ?_, ?_, ?_⟩
          · intro _ hc
            exact absurd hc hguard
          · rw [heof]
            simp
          · intro hbuf
            exfalso
            have : 1 ≤ (remPix img st).length := by
              rw [hremc]
              simp
            omega

/-- The session byte stream of a fresh encoder is the encodeBody stream. -/
theorem encRest_encInit (ps : List Pix) : encRest encInit ps = encodeBody ps := by
  rw [encodeBody, encodeChunks, chunksBytes_append]
  rfl

/-- The pixels left from a state, counted. -/
theorem remPix_length (img : Img) (st : EncIOSt) :
    (remPix img st).length = (pixList img).length - encPos img st := by
  rw [remPix, List.length_drop]

/-- The save loop of _save concatenates the encode calls into exactly the
pending session byte stream. -/
theorem saveLoop_spec (img : Img) (bufsize : Nat)
    (hwd : img.width * img.height = img.data.length) (hw : 0 < img.width)
    (hbs : 8 ≤ bufsize) :
    ∀ (fuel : Nat) (st : EncIOSt),
      EncInv img st →
      st.eof = false →
      (remPix img st).length + 1 ≤ fuel →
      saveLoop img bufsize fuel st = some (encRest (projSt st) (remPix img st)) := by
  intro fuel
  induction fuel with
  | zero =>
      intro st _ _ hfuel
      omega
  | succ f ihf =>
      intro st hinv heof hfuel
      obtain ⟨bytes, st', hres, hinv', hpos', hprog', hcomp', hbig'⟩ :=
        encodeLoop_spec img bufsize hwd hw (img.width * img.height + 1) st []
          hinv
          (by rw [remPix_length, pixList, List.length_map, ← hwd]
              omega)
          (by show (0 : Nat) < bufsize
              omega)
      have hres2 : QoiEncoder.encode img bufsize st = some ([] ++ bytes, st') := hres
      rw [saveLoop, hres2]
      dsimp only
      by_cases heof' : st'.eof = true
      · rw [if_pos heof']
        rw [if_pos heof'] at hcomp'
        rw [hcomp', List.append_nil, List.nil_append]
      · rw [if_neg heof']
        rw [if_neg heof'] at hcomp'
        have heofb' : st'.eof = false := by
          rw [Bool.not_eq_true] at heof'
          exact heof'
        have hprog2 : encPos img st + 1 ≤ encPos img st' :=
          hprog' heof (by simp; omega)
        have hne : remPix img st ≠ [] := by
          intro hc
          have := (eof_iff_remPix_nil img st hwd hinv).2 hc
          rw [heof] at this
          cases this
        have hlen1 : 1 ≤ (remPix img st).length := by
          cases hq : remPix img st with
          | nil => exact absurd hq hne
          | cons a l => simp
        rw [ihf st' hinv' heofb'
          (by rw [remPix_length] at hfuel ⊢
              rw [remPix_length] at hlen1
              omega)]
        rw [Option.map]
        rw [hcomp', List.nil_append]

/-- What _save writes for a well-shaped image: header, session bytes, marker,
and no failure. -/
theorem save_spec (img : Img)
    (hmode : img.mode = "RGB" ∨ img.mode = "RGBA")
    (hwd : img.width * img.height = img.data.length)
    (hw : 0 < img.width) (hh : 0 < img.height) :
    save img = ((QOI_MAGIC ++ be32 img.width ++ be32 img.height ++
      [if img.mode = "RGBA" then QOI_HEADER_RGBA else QOI_HEADER_RGB, QOI_HEADER_SRGB]) ++
      (encodeBody (pixList img) ++ QOI_EOF_MARKER), none) := by
  rw [save]
  rw [if_neg (by rcases hmode with hm | hm <;> simp [hm])]
  have hinv : EncInv img encIOInit := by
    refine ⟨hw, ?_⟩
    show false = decide (img.height ≤ 0)
    have : ¬ img.height ≤ 0 := by omega
    rw [decide_eq_false this]
  have hpos0 : encPos img encIOInit = 0 := by
    simp [encPos, encIOInit]
  have hrem0 : remPix img encIOInit = pixList img := by
    rw [remPix, hpos0]
    exact List.drop_zero _
  have hloop := saveLoop_spec img (max 65536 (img.width * 4)) hwd hw
    (by omega)
    (img.width * img.height + 1) encIOInit hinv rfl
    (by rw [remPix_length, pixList, List.length_map, ← hwd, hpos0]
        omega)
  rw [hloop]
  rw [show projSt encIOInit = encInit from rfl, hrem0, encRest_encInit]
  rfl

/-- Loading a stream with a well-formed header parses the dimensions and the
channel count and hands the remainder to the decoder. -/
theorem load_header (w h ch cs : Nat) (rest : List Nat)
    (hw : w < 2 ^ 32) (hh : h < 2 ^ 32) :
    load (QOI_MAGIC ++ be32 w ++ be32 h ++ [ch, cs] ++ rest) =
      match QoiDecoder.decode (decide (ch = QOI_HEADER_RGB)) (w * h) (rest.length + 1)
          rest 0 decInit [] with
      | DecRes.ok done i st out => LoadRes.ok w h ch done i st out
      | DecRes.err e => LoadRes.err e := by
  have hstream : QOI_MAGIC ++ be32 w ++ be32 h ++ [ch, cs] ++ rest =
      113 :: 111 :: 105 :: 102 ::
        (w / 2 ^ 24 % 256) :: (w / 2 ^ 16 % 256) :: (w / 2 ^ 8 % 256) :: (w % 256) ::
        (h / 2 ^ 24 % 256) :: (h / 2 ^ 16 % 256) :: (h / 2 ^ 8 % 256) :: (h % 256) ::
        ch :: cs :: rest := by
    simp [QOI_MAGIC, be32]
  rw [load, hstream]
  rw [if_neg (by simp [QOI_MAGIC])]
  rw [if_neg (by simp only [List.length_cons, not_lt]; omega)]
  have hpw : parseBE32 ((113 :: 111 :: 105 :: 102 ::
      (w / 2 ^ 24 % 256) :: (w / 2 ^ 16 % 256) :: (w / 2 ^ 8 % 256) :: (w % 256) ::
      (h / 2 ^ 24 % 256) :: (h / 2 ^ 16 % 256) :: (h / 2 ^ 8 % 256) :: (h % 256) ::
      ch :: cs :: rest).drop 4) = w := by
    simp only [List.drop_succ_cons, List.drop_zero]
    rw [parseBE32]
    simp only [List.getD_cons_zero, List.getD_cons_succ]
    omega
  have hph : parseBE32 ((113 :: 111 :: 105 :: 102 ::
      (w / 2 ^ 24 % 256) :: (w / 2 ^ 16 % 256) :: (w / 2 ^ 8 % 256) :: (w % 256) ::
      (h / 2 ^ 24 % 256) :: (h / 2 ^ 16 % 256) :: (h / 2 ^ 8 % 256) :: (h % 256) ::
      ch :: cs :: rest).drop 8) = h := by
    simp only [List.drop_succ_cons, List.drop_zero]
    rw [parseBE32]
    simp only [List.getD_cons_zero, List.getD_cons_succ]
    omega
  rw [hpw, hph]
  simp only [List.getD_cons_zero, List.getD_cons_succ, List.drop_succ_cons, List.drop_zero]

/-- A well-formed 3-channel row round-trips through alpha extension, gets
alpha 255, and is a valid pixel. -/
theorem row3_toPix4 (raw : List Nat) (hlen : raw.length = 3)
    (hval : ∀ v ∈ raw, v < 256) :
    emitPix true (toPix4 raw) = raw ∧ (toPix4 raw).Valid ∧ (toPix4 raw).a = 255 := by
  match raw, hlen with
  | [a, b, c], _ =>
      have ha : a < 256 := hval a (by simp)
      have hb : b < 256 := hval b (by simp)
      have hc : c < 256 := hval c (by simp)
      refine ⟨?_, ⟨?_, ?_, ?_, ?_⟩, ?_⟩ <;> simp [toPix4, emitPix, Pix.Valid] <;> omega

/-- A well-formed 4-channel row is taken verbatim and is a valid pixel. -/
theorem row4_toPix4 (raw : List Nat) (hlen : raw.length = 4)
    (hval : ∀ v ∈ raw, v < 256) :
    emitPix false (toPix4 raw) = raw ∧ (toPix4 raw).Valid := by
  match raw, hlen with
  | [a, b, c, d], _ =>
      have ha : a < 256 := hval a (by simp)
      have hb : b < 256 := hval b (by simp)
      have hc : c < 256 := hval c (by simp)
      have hd : d < 256 := hval d (by simp)
      refine ⟨?_, ?_, ?_, ?_, ?_⟩ <;> simp [toPix4, emitPix, Pix.Valid] <;> omega

/-- Well-formed rows all become valid pixels, putpixel reproduces every row
verbatim, and in RGB mode every pixel carries alpha 255. -/
theorem rows_emit (mode3 : Bool) (rows : List (List Nat))
    (h : ∀ raw ∈ rows, rowValid mode3 raw) :
    (rows.map toPix4).map (emitPix mode3) = rows ∧
      (∀ p ∈ rows.map toPix4, p.Valid) ∧
      (mode3 = true → ∀ p ∈ rows.map toPix4, p.a = 255) := by
  induction rows with
  | nil => simp
  | cons raw rows ih =>
      have hr := h raw (by simp)
      obtain ⟨hmap, hval, halpha⟩ := ih (fun r hr2 => h r (by simp [hr2]))
      obtain ⟨hlen, hvals⟩ := hr
      cases mode3 with
      | true =>
          obtain ⟨he, hv, ha⟩ := row3_toPix4 raw (by simpa using hlen) hvals
          refine ⟨?_, ?_, ?_⟩
          · simp only [List.map_cons, he, hmap]
          · intro p hp
            rw [List.map_cons] at hp
            rcases List.mem_cons.1 hp with hp | hp
            · exact hp ▸ hv
            · exact hval p hp
          · intro _ p hp
            rw [List.map_cons] at hp
            rcases List.mem_cons.1 hp with hp | hp
            · exact hp ▸ ha
            · exact halpha rfl p hp
      | false =>
          obtain ⟨he, hv⟩ := row4_toPix4 raw (by simpa using hlen) hvals
          refine ⟨?_, ?_, ?_⟩
          · simp only [List.map_cons, he, hmap]
          · intro p hp
            rw [List.map_cons] at hp
            rcases List.mem_cons.1 hp with hp | hp
            · exact hp ▸ hv
            · exact hval p hp
          · intro hfalse
            cases hfalse

/-- The encoder loop never grows the written prefix beyond the buffer size:
loop writes happen under the guard i + 6 < bufsize and add at most 6 bytes,
and the post-loop flush byte is written only at an index below bufsize. -/
theorem encodeLoop_length (img : Img) (bufsize : Nat) :
    ∀ (fuel : Nat) (st : EncIOSt) (out res : List Nat) (st' : EncIOSt),
      QoiEncoder.encodeLoop img bufsize fuel st out = some (res, st') →
      out.length ≤ bufsize → res.length ≤ bufsize := by
  intro fuel
  induction fuel with
  | zero =>
      intro st out res st' h _
      exact absurd h (by rw [QoiEncoder.encodeLoop]; simp)
  | succ f ih =>
      intro st out res st' h hout
      rw [QoiEncoder.encodeLoop] at h
      by_cases hg : st.eof = false ∧ out.length + 6 < bufsize
      · rw [if_pos hg] at h
        cases hgp : img.getpixel st.x st.y with
        | none =>
            rw [hgp] at h
            exact absurd h (by simp)
        | some raw =>
            rw [hgp] at h
            dsimp only at h
            refine ih _ _ _ _ h ?_
            have hb := encStep_bytes_le ⟨st.previous_pixel, st.cache, st.run⟩ (toPix4 raw)
            simp only [List.length_append]
            omega
      · rw [if_neg hg] at h
        by_cases hf : st.eof = true ∧ st.run ≠ 0
        · rw [if_pos hf] at h
          by_cases ho : out.length < bufsize
          · rw [if_pos ho] at h
            have hres : res = out ++ [QOI_OP_RUN ||| (st.run - 1)] := by
              have := Option.some.inj h
              exact (congrArg Prod.fst this).symm
            rw [hres]
            simp only [List.length_append, List.length_cons, List.length_nil]
            omega
          · rw [if_neg ho] at h
            exact absurd h (by simp)
        · rw [if_neg hf] at h
          have hres : res = out := by
            have := Option.some.inj h
            exact (congrArg Prod.fst this).symm
          rw [hres]
          exact hout

/-- Saving a well-formed image and loading the written bytes succeeds: the
loader recovers the dimensions and channel count, the decoder reports the end
marker with exactly the original rows emitted, and the decoder's final state
is the encoder's final predictor and cache. -/
theorem load_save (img : Img)
    (hmode : img.mode = "RGB" ∨ img.mode = "RGBA")
    (hwd : img.width * img.height = img.data.length)
    (hw : 0 < img.width) (hh : 0 < img.height)
    (hw32 : img.width < 2 ^ 32) (hh32 : img.height < 2 ^ 32)
    (hrows : ∀ raw ∈ img.data, rowValid (if img.mode = "RGBA" then false else true) raw) :
    (save img).2 = none ∧
    load (save img).1 = LoadRes.ok img.width img.height
      (if img.mode = "RGBA" then QOI_HEADER_RGBA else QOI_HEADER_RGB) true
      (encodeBody (pixList img)).length
      ⟨(encChunks encInit (pixList img)).2.previous_pixel,
        (encChunks encInit (pixList img)).2.cache⟩
      img.data ∧
    (∀ p ∈ pixList img, p.Valid) ∧
    (img.mode = "RGB" → ∀ p ∈ pixList img, p.a = 255) := by
  have hsave := save_spec img hmode hwd hw hh
  obtain ⟨hmap, hval, halpha⟩ :=
    rows_emit (if img.mode = "RGBA" then false else true) img.data hrows
  have hvalid : ∀ p ∈ pixList img, p.Valid := by
    rw [pixList]; exact hval
  have halpha' : img.mode = "RGB" → ∀ p ∈ pixList img, p.a = 255 := by
    intro hm
    rw [pixList]
    exact halpha (by rw [hm]; decide)
  refine ⟨by rw [hsave], ?_, hvalid, halpha'⟩
  rw [hsave]
  show load (QOI_MAGIC ++ be32 img.width ++ be32 img.height ++
      [if img.mode = "RGBA" then QOI_HEADER_RGBA else QOI_HEADER_RGB, QOI_HEADER_SRGB] ++
      (encodeBody (pixList img) ++ QOI_EOF_MARKER)) = _
  rw [load_header img.width img.height _ _ _ hw32 hh32]
  have hcount : ([] : List (List Nat)).length + encInit.run + (pixList img).length =
      img.width * img.height := by
    simp only [List.length_nil, encInit, pixList, List.length_map]
    omega
  have hfuel : (encRest encInit (pixList img)).length + 9 ≤
      (encodeBody (pixList img) ++ QOI_EOF_MARKER).length + 1 := by
    rw [encRest_encInit]
    simp only [List.length_append]
    have : QOI_EOF_MARKER.length = 8 := by decide
    omega
  rcases hmode with hm | hm
  · have hch : (if img.mode = "RGBA" then QOI_HEADER_RGBA else QOI_HEADER_RGB)
        = QOI_HEADER_RGB := by rw [hm]; decide
    rw [hch]
    have hm3t : decide (QOI_HEADER_RGB = QOI_HEADER_RGB) = true := by decide
    rw [hm3t]
    rw [hm] at hmap
    have hmap' : (img.data.map toPix4).map (emitPix true) = img.data := by
      simpa using hmap
    have hdec := decode_encRest true (img.width * img.height) (pixList img) encInit []
      0 ((encodeBody (pixList img) ++ QOI_EOF_MARKER).length + 1)
      (by decide) hvalid (by decide) (by decide) hcount hfuel
    rw [encRest_encInit] at hdec
    have hdec2 : QoiDecoder.decode true (img.width * img.height)
        ((encodeBody (pixList img) ++ QOI_EOF_MARKER).length + 1)
        (encodeBody (pixList img) ++ QOI_EOF_MARKER) 0 decInit []
        = DecRes.ok true (0 + (encodeBody (pixList img)).length)
            ⟨(encChunks encInit (pixList img)).2.previous_pixel,
              (encChunks encInit (pixList img)).2.cache⟩
            ([] ++ (List.replicate encInit.run encInit.previous_pixel ++
              pixList img).map (emitPix true)) := hdec
    rw [hdec2]
    simp only [encInit, List.replicate_zero, List.nil_append, Nat.zero_add]
    rw [pixList, hmap']
  · have hch : (if img.mode = "RGBA" then QOI_HEADER_RGBA else QOI_HEADER_RGB)
        = QOI_HEADER_RGBA := by rw [hm]; decide
    rw [hch]
    have hm3f : decide (QOI_HEADER_RGBA = QOI_HEADER_RGB) = false := by decide
    rw [hm3f]
    rw [hm] at hmap
    have hmap' : (img.data.map toPix4).map (emitPix false) = img.data := by
      simpa using hmap
    have hdec := decode_encRest false (img.width * img.height) (pixList img) encInit []
      0 ((encodeBody (pixList img) ++ QOI_EOF_MARKER).length + 1)
      (by decide) hvalid (by decide) (by decide) hcount hfuel
    rw [encRest_encInit] at hdec
    have hdec2 : QoiDecoder.decode false (img.width * img.height)
        ((encodeBody (pixList img) ++ QOI_EOF_MARKER).length + 1)
        (encodeBody (pixList img) ++ QOI_EOF_MARKER) 0 decInit []
        = DecRes.ok true (0 + (encodeBody (pixList img)).length)
            ⟨(encChunks encInit (pixList img)).2.previous_pixel,
              (encChunks encInit (pixList img)).2.cache⟩
            ([] ++ (List.replicate encInit.run encInit.previous_pixel ++
              pixList img).map (emitPix false)) := hdec
    rw [hdec2]
    simp only [encInit, List.replicate_zero, List.nil_append, Nat.zero_add]
    rw [pixList, hmap']

instance (mode3 : Bool) (raw : List Nat) : Decidable (rowValid mode3 raw) := by
  unfold rowValid
  infer_instance

/-! ## The claims -/

/-- C1: saving a well-formed image (mode RGB or RGBA, positive dimensions
matching the row count, byte-sized rows of the mode's channel count) and
loading the written bytes succeeds and returns exactly the original rows with
the original dimensions and channel count; a 3-channel image round-trips as
3-channel, every internal pixel carrying the reconstructed alpha 255. -/
theorem C1_roundtrip (img : Img)
    (hmode : img.mode = "RGB" ∨ img.mode = "RGBA")
    (hwd : img.width * img.height = img.data.length)
    (hw : 0 < img.width) (hh : 0 < img.height)
    (hw32 : img.width < 2 ^ 32) (hh32 : img.height < 2 ^ 32)
    (hrows : ∀ raw ∈ img.data, rowValid (if img.mode = "RGBA" then false else true) raw) :
    (save img).2 = none ∧
    loadPixels (save img).1 = some (img.width, img.height,
      (if img.mode = "RGBA" then QOI_HEADER_RGBA else QOI_HEADER_RGB), img.data) ∧
    (img.mode = "RGB" → ∀ p ∈ pixList img, p.a = 255) := by
  obtain ⟨hnone, hload, -, halpha⟩ := load_save img hmode hwd hw hh hw32 hh32 hrows
  refine ⟨hnone, ?_, halpha⟩
  rw [loadPixels, hload]

/-- Witness for C1 on a concrete 2 by 1 RGB image. -/
theorem C1_roundtrip_witness :
    ((0 : Nat) < 2 ∧ (0 : Nat) < 1 ∧
      (∀ raw ∈ [[10, 20, 30], [200, 100, 50]],
        rowValid (if ("RGB" : String) = "RGBA" then false else true) raw)) ∧
    ((save (Img.mk "RGB" 2 1 [[10, 20, 30], [200, 100, 50]])).2 = none ∧
     loadPixels (save (Img.mk "RGB" 2 1 [[10, 20, 30], [200, 100, 50]])).1
       = some (2, 1, (if ("RGB" : String) = "RGBA" then QOI_HEADER_RGBA else QOI_HEADER_RGB),
           [[10, 20, 30], [200, 100, 50]]) ∧
     ((Img.mk "RGB" 2 1 [[10, 20, 30], [200, 100, 50]]).mode = "RGB" →
       ∀ p ∈ pixList (Img.mk "RGB" 2 1 [[10, 20, 30], [200, 100, 50]]), p.a = 255)) :=
  ⟨⟨by decide, by decide, by decide⟩,
   C1_roundtrip (Img.mk "RGB" 2 1 [[10, 20, 30], [200, 100, 50]])
     (Or.inl rfl) (by decide) (by decide) (by decide) (by decide) (by decide) (by decide)⟩

/-- C2 (amended): when the run counter reaches 62 the encoder flushes a RUN
opcode at once, without waiting for a mismatching pixel, and resets the
counter to 0; an image of 62 pixels equal to the initial predictor followed
by one different pixel encodes to exactly one RUN opcode of length 62
followed by the opcode of the differing pixel. -/
theorem C2_run_flush (st : EncSt) (p : Pix)
    (hrun : st.run = 61) (hp : p = st.previous_pixel) :
    (encStep st p).1 = [Chunk.runC 62] ∧
    (encStep st p).2.run = 0 ∧
    chunkBytes (Chunk.runC 62) = [QOI_OP_RUN ||| 61] ∧
    encodeBody (List.replicate 62 ⟨0, 0, 0, 255⟩ ++ [⟨1, 2, 3, 255⟩]) =
      [QOI_OP_RUN ||| 61, 162, 121] := by
  refine ⟨?_, ?_, by decide, by decide⟩
  · simp only [encStep, if_pos hp, hrun]
    rw [if_pos (by omega)]
  · simp only [encStep, if_pos hp, hrun]
    rw [if_pos (by omega)]

/-- Witness for C2 at run counter 61 and a repeated predictor pixel. -/
theorem C2_run_flush_witness :
    (⟨⟨0, 0, 0, 255⟩, initCache, 61⟩ : EncSt).run = 61 ∧
    (⟨0, 0, 0, 255⟩ : Pix) = (⟨⟨0, 0, 0, 255⟩, initCache, 61⟩ : EncSt).previous_pixel ∧
    ((encStep ⟨⟨0, 0, 0, 255⟩, initCache, 61⟩ ⟨0, 0, 0, 255⟩).1 = [Chunk.runC 62] ∧
     (encStep ⟨⟨0, 0, 0, 255⟩, initCache, 61⟩ ⟨0, 0, 0, 255⟩).2.run = 0 ∧
     chunkBytes (Chunk.runC 62) = [QOI_OP_RUN ||| 61] ∧
     encodeBody (List.replicate 62 ⟨0, 0, 0, 255⟩ ++ [⟨1, 2, 3, 255⟩]) =
       [QOI_OP_RUN ||| 61, 162, 121]) :=
  ⟨rfl, rfl, C2_run_flush ⟨⟨0, 0, 0, 255⟩, initCache, 61⟩ ⟨0, 0, 0, 255⟩ rfl rfl⟩

/-- C2 counterexample: 62 identical pixels that differ from the initial
predictor followed by one different pixel do not encode to one RUN opcode
followed by the differing pixel's opcode; the first pixel leaves the encoder
as an RGB opcode, so the stream is RGB, a RUN of length 61, then RGB - the
head byte is not the RUN-62 byte. -/
theorem C2_cex :
    encodeBody (List.replicate 62 ⟨10, 20, 30, 255⟩ ++ [⟨200, 100, 50, 255⟩]) =
      [QOI_OP_RGB, 10, 20, 30, QOI_OP_RUN ||| 60, QOI_OP_RGB, 200, 100, 50] ∧
    (encodeBody (List.replicate 62 ⟨10, 20, 30, 255⟩ ++ [⟨200, 100, 50, 255⟩])).getD 0 0 ≠
      QOI_OP_RUN ||| 61 :=
  ⟨by decide, by decide⟩

/-- C3: for a pixel that is not part of a run the encoder picks the opcode in
the fixed priority INDEX, DIFF, LUMA, RGB, RGBA, first match winning; in
particular a transition that matches its cache slot and satisfies the DIFF
delta ranges at the same time produces an INDEX opcode, not a DIFF opcode. -/
theorem C3_priority (st : EncSt) (p : Pix) (dr dg db : Int)
    (hdr : dr = (p.r : Int) - (st.previous_pixel.r : Int))
    (hdg : dg = (p.g : Int) - (st.previous_pixel.g : Int))
    (hdb : db = (p.b : Int) - (st.previous_pixel.b : Int))
    (hne : p ≠ st.previous_pixel) (hrun : st.run = 0) :
    (p = cacheGet st.cache (pixel_hash p) →
      (encStep st p).1 = [Chunk.indexC (pixel_hash p)]) ∧
    (p ≠ cacheGet st.cache (pixel_hash p) →
      (p.a = st.previous_pixel.a ∧ (dr + 2) % 256 < 4 ∧ (dg + 2) % 256 < 4 ∧
        (db + 2) % 256 < 4) →
      (encStep st p).1 = [Chunk.diffC dr dg db]) ∧
    (p ≠ cacheGet st.cache (pixel_hash p) →
      ¬(p.a = st.previous_pixel.a ∧ (dr + 2) % 256 < 4 ∧ (dg + 2) % 256 < 4 ∧
        (db + 2) % 256 < 4) →
      (p.a = st.previous_pixel.a ∧ (dg + 32) % 256 < 64 ∧ (dr - dg + 8) % 256 < 16 ∧
        (db - dg + 8) % 256 < 16) →
      (encStep st p).1 = [Chunk.lumaC dg dr db]) ∧
    (p ≠ cacheGet st.cache (pixel_hash p) →
      ¬(p.a = st.previous_pixel.a ∧ (dr + 2) % 256 < 4 ∧ (dg + 2) % 256 < 4 ∧
        (db + 2) % 256 < 4) →
      ¬(p.a = st.previous_pixel.a ∧ (dg + 32) % 256 < 64 ∧ (dr - dg + 8) % 256 < 16 ∧
        (db - dg + 8) % 256 < 16) →
      p.a = st.previous_pixel.a →
      (encStep st p).1 = [Chunk.rgbC p]) ∧
    (p ≠ cacheGet st.cache (pixel_hash p) →
      ¬(p.a = st.previous_pixel.a ∧ (dr + 2) % 256 < 4 ∧ (dg + 2) % 256 < 4 ∧
        (db + 2) % 256 < 4) →
      ¬(p.a = st.previous_pixel.a ∧ (dg + 32) % 256 < 64 ∧ (dr - dg + 8) % 256 < 16 ∧
        (db - dg + 8) % 256 < 16) →
      p.a ≠ st.previous_pixel.a →
      (encStep st p).1 = [Chunk.rgbaC p]) := by
  subst hdr
  subst hdg
  subst hdb
  have hstep : (encStep st p).1 =
      [opSelect st p ((p.r : Int) - (st.previous_pixel.r : Int))
        ((p.g : Int) - (st.previous_pixel.g : Int))
        ((p.b : Int) - (st.previous_pixel.b : Int))] := by
    simp [encStep, hne, hrun]
  refine ⟨?_, ?_, ?_, ?_, ?_⟩
  · intro hhit
    rw [hstep, opSelect, if_pos hhit]
  · intro hmiss hd
    rw [hstep, opSelect, if_neg hmiss, if_pos hd]
  · intro hmiss hnd hl
    rw [hstep, opSelect, if_neg hmiss, if_neg hnd, if_pos hl]
  · intro hmiss hnd hnl ha
    rw [hstep, opSelect, if_neg hmiss, if_neg hnd, if_neg hnl, if_pos ha]
  · intro hmiss hnd hnl hna
    rw [hstep, opSelect, if_neg hmiss, if_neg hnd, if_neg hnl, if_neg hna]

/-- Witness for C3: a transition that hits cache slot 53 while satisfying the
DIFF ranges, resolved as an INDEX opcode. -/
theorem C3_priority_witness :
    (⟨0, 0, 0, 255⟩ : Pix) ≠ (⟨⟨1, 0, 0, 255⟩, cacheSet initCache 53 ⟨0, 0, 0, 255⟩, 0⟩
        : EncSt).previous_pixel ∧
    (⟨0, 0, 0, 255⟩ : Pix)
      = cacheGet (cacheSet initCache 53 ⟨0, 0, 0, 255⟩) (pixel_hash ⟨0, 0, 0, 255⟩) ∧
    ((-1 : Int) + 2) % 256 < 4 ∧ ((0 : Int) + 2) % 256 < 4 ∧
    (encStep ⟨⟨1, 0, 0, 255⟩, cacheSet initCache 53 ⟨0, 0, 0, 255⟩, 0⟩ ⟨0, 0, 0, 255⟩).1
      = [Chunk.indexC (pixel_hash ⟨0, 0, 0, 255⟩)] :=
  ⟨by decide, by decide, by decide, by decide,
   (C3_priority ⟨⟨1, 0, 0, 255⟩, cacheSet initCache 53 ⟨0, 0, 0, 255⟩, 0⟩ ⟨0, 0, 0, 255⟩
      (-1) 0 0 (by decide) (by decide) (by decide) (by decide) rfl).1 (by decide)⟩

/-- C4 (amended): a RUN opcode makes the decoder emit the current predictor
pixel (tag and 0x3F) + 1 times, but the decoder state - predictor and color
cache - is passed on unchanged: the run branch skips the cache update that
every other opcode performs. -/
theorem C4_run_step (mode3 : Bool) (cap fuel i r : Nat) (rest : List Nat)
    (st : DecSt) (out : List (List Nat))
    (hr : r < 62) (hrest : 8 ≤ rest.length)
    (hcap : out.length + (r + 1) ≤ cap) :
    QoiDecoder.decode mode3 cap (fuel + 1) ((QOI_OP_RUN ||| r) :: rest) i st out
      = QoiDecoder.decode mode3 cap fuel rest (i + 1) st
          (out ++ List.replicate (r + 1) (emitPix mode3 st.current_pixel)) :=
  decode_step_run mode3 cap fuel i rest st out (r + 1) (by omega) (by omega) hrest (by omega)

/-- Witness for C4 on a length-2 run in front of the end marker. -/
theorem C4_run_step_witness :
    (1 : Nat) < 62 ∧ 8 ≤ QOI_EOF_MARKER.length ∧
    ([] : List (List Nat)).length + (1 + 1) ≤ 2 ∧
    QoiDecoder.decode false 2 20 ((QOI_OP_RUN ||| 1) :: QOI_EOF_MARKER) 0 decInit []
      = QoiDecoder.decode false 2 19 QOI_EOF_MARKER (0 + 1) decInit
          ([] ++ List.replicate (1 + 1) (emitPix false decInit.current_pixel)) :=
  ⟨by decide, by decide, by decide,
   C4_run_step false 2 19 0 1 QOI_EOF_MARKER decInit [] (by decide) (by decide) (by decide)⟩

/-- C4 counterexample: after a RUN opcode resolves the pixel (0,0,0,255) the
decoder state is still the initial one, and the cache slot of that pixel does
not hold it - the cache is not updated for pixels produced by RUN. -/
theorem C4_cex :
    QoiDecoder.decode false 1 10 ((QOI_OP_RUN ||| 0) :: QOI_EOF_MARKER) 0 decInit []
      = DecRes.ok true 1 decInit [[0, 0, 0, 255]] ∧
    cacheGet decInit.cache (pixel_hash ⟨0, 0, 0, 255⟩) ≠ (⟨0, 0, 0, 255⟩ : Pix) :=
  ⟨by decide, by decide⟩

/-- C5 (amended): when the 8-byte end marker heads the remaining input the
decoder returns the done flag with whatever output was produced, whether or
not width times height pixels were emitted, and when fewer than 6 bytes
remain it returns the not-done flag with its state intact; neither case is
reported as an error. -/
theorem C5_returns (mode3 : Bool) (cap fuel i : Nat) (st : DecSt)
    (out : List (List Nat)) (rest rem : List Nat) (hrem : rem.length ≤ 5) :
    QoiDecoder.decode mode3 cap (fuel + 1) (QOI_EOF_MARKER ++ rest) i st out
        = DecRes.ok true i st out ∧
    QoiDecoder.decode mode3 cap (fuel + 1) rem i st out = DecRes.ok false i st out := by
  constructor
  · rw [QoiDecoder.decode]
    rw [if_pos (by simp only [QOI_EOF_MARKER, List.length_append, List.length_cons,
          List.length_nil]; omega)]
    rw [if_pos (by simp [QOI_EOF_MARKER])]
  · rw [QoiDecoder.decode]
    rw [if_neg (by omega)]

/-- Witness for C5: the bare marker with zero of one expected pixels, and a
5-byte remainder. -/
theorem C5_returns_witness :
    ([QOI_OP_RGBA, 10, 20, 30, 40] : List Nat).length ≤ 5 ∧
    QoiDecoder.decode false 1 9 (QOI_EOF_MARKER ++ []) 0 decInit []
      = DecRes.ok true 0 decInit [] ∧
    QoiDecoder.decode false 1 9 [QOI_OP_RGBA, 10, 20, 30, 40] 0 decInit []
      = DecRes.ok false 0 decInit [] :=
  ⟨by decide,
   C5_returns false 1 8 0 decInit [] [] [QOI_OP_RGBA, 10, 20, 30, 40] (by decide)⟩

/-- C5 counterexample: the marker with zero of one expected pixels yields the
done return, not a pixel-count failure; a stream ending right after exactly
the one expected pixel and without the marker yields the not-done return, not
a missing-marker failure. -/
theorem C5_cex :
    QoiDecoder.decode false 1 9 QOI_EOF_MARKER 0 decInit [] = DecRes.ok true 0 decInit [] ∧
    QoiDecoder.decode false 1 7 [QOI_OP_RGB, 10, 20, 30, 0, 0] 0 decInit []
      = DecRes.ok false 4
          ⟨⟨10, 20, 30, 255⟩,
            cacheSet initCache (pixel_hash ⟨10, 20, 30, 255⟩) ⟨10, 20, 30, 255⟩⟩
          [[10, 20, 30, 255]] :=
  ⟨by decide, by decide⟩

/-- C6 (amended): an unsupported mode raises the ValueError before any byte
is written, but an empty image is not rejected up front: the 14-byte header
is written first and the failure surfaces only as the encoder raising. -/
theorem C6_errors (bad img : Img)
    (h1 : bad.mode ≠ "RGB") (h2 : bad.mode ≠ "RGBA")
    (hmode : img.mode = "RGB" ∨ img.mode = "RGBA")
    (hwh : img.width * img.height = 0) :
    save bad = ([], some SaveErr.valueError) ∧
    save img = (QOI_MAGIC ++ be32 img.width ++ be32 img.height ++
        [if img.mode = "RGBA" then QOI_HEADER_RGBA else QOI_HEADER_RGB, QOI_HEADER_SRGB],
      some SaveErr.encoderRaised) ∧
    (QOI_MAGIC ++ be32 img.width ++ be32 img.height ++
        [if img.mode = "RGBA" then QOI_HEADER_RGBA else QOI_HEADER_RGB,
          QOI_HEADER_SRGB]).length = 14 := by
  refine ⟨by rw [save, if_pos ⟨h1, h2⟩], ?_, by simp [QOI_MAGIC, be32]⟩
  have hgp : img.getpixel encIOInit.x encIOInit.y = none := by
    rw [Img.getpixel, if_neg]
    intro hc
    obtain ⟨hcx, hcy⟩ := hc
    rw [show encIOInit.x = 0 from rfl] at hcx
    rw [show encIOInit.y = 0 from rfl] at hcy
    have := Nat.mul_pos hcx hcy
    omega
  have henc : QoiEncoder.encode img (max 65536 (img.width * 4)) encIOInit = none := by
    rw [QoiEncoder.encode, hwh]
    rw [QoiEncoder.encodeLoop]
    rw [if_pos ⟨rfl, by
      have := Nat.le_max_left 65536 (img.width * 4)
      simp only [List.length_nil]
      omega⟩]
    rw [hgp]
  rw [save, if_neg (by rcases hmode with hm | hm <;> simp [hm])]
  have hsl : saveLoop img (max 65536 (img.width * 4))
      (img.width * img.height + 1) encIOInit = none := by
    rw [hwh, saveLoop, henc]
  rw [hsl]

/-- Witness for C6: a palette-mode image and an empty RGB image. -/
theorem C6_errors_witness :
    ("P" : String) ≠ "RGB" ∧ ("P" : String) ≠ "RGBA" ∧ (0 : Nat) * 1 = 0 ∧
    (save (Img.mk "P" 1 1 [[0]]) = ([], some SaveErr.valueError) ∧
     save (Img.mk "RGB" 0 1 []) = (QOI_MAGIC ++ be32 0 ++ be32 1 ++
         [if ("RGB" : String) = "RGBA" then QOI_HEADER_RGBA else QOI_HEADER_RGB,
           QOI_HEADER_SRGB],
       some SaveErr.encoderRaised) ∧
     (QOI_MAGIC ++ be32 0 ++ be32 1 ++
         [if ("RGB" : String) = "RGBA" then QOI_HEADER_RGBA else QOI_HEADER_RGB,
           QOI_HEADER_SRGB]).length = 14) :=
  ⟨by decide, by decide, by decide,
   C6_errors (Img.mk "P" 1 1 [[0]]) (Img.mk "RGB" 0 1 [])
     (by decide) (by decide) (Or.inl rfl) (by decide)⟩

/-- C6 counterexample: saving an empty RGB image writes the 14-byte header
before the failure - output is produced ahead of the error, and the failure
is the encoder raising rather than an empty-image precondition check. -/
theorem C6_cex :
    save (Img.mk "RGB" 0 1 []) =
      ([113, 111, 105, 102, 0, 0, 0, 0, 0, 0, 0, 1, 3, 0], some SaveErr.encoderRaised) ∧
    ([113, 111, 105, 102, 0, 0, 0, 0, 0, 0, 0, 1, 3, 0] : List Nat) ≠ [] :=
  ⟨by decide, by decide⟩

/-- C7: every RUN chunk of an encoding session carries a run length between 1
and 62, and its byte 0xC0 or (run - 1) lies in 0xC0..0xFD, never colliding
with the RGB tag 0xFE or the RGBA tag 0xFF. -/
theorem C7_run_range (ps : List Pix) (r : Nat)
    (hmem : Chunk.runC r ∈ encodeChunks ps) :
    1 ≤ r ∧ r ≤ 62 ∧
    chunkBytes (Chunk.runC r) = [QOI_OP_RUN ||| (r - 1)] ∧
    192 ≤ QOI_OP_RUN ||| (r - 1) ∧ QOI_OP_RUN ||| (r - 1) ≤ 253 ∧
    QOI_OP_RUN ||| (r - 1) ≠ QOI_OP_RGB ∧ QOI_OP_RUN ||| (r - 1) ≠ QOI_OP_RGBA := by
  have hb : 1 ≤ r ∧ r ≤ 62 := by
    rw [encodeChunks] at hmem
    rcases List.mem_append.1 hmem with hm | hm
    · exact (encChunks_runC_bound ps encInit (by decide)).2 r hm
    · rw [encFinish] at hm
      by_cases hz : (encChunks encInit ps).2.run ≠ 0
      · rw [if_pos hz] at hm
        simp only [List.mem_singleton, Chunk.runC.injEq] at hm
        have := (encChunks_runC_bound ps encInit (by decide)).1
        omega
      · rw [if_neg hz] at hm
        simp at hm
  obtain ⟨hx1, hx2⟩ := hb
  obtain ⟨hne255, hne254, -, -, -, hge, hle⟩ := runByteFacts (r - 1) (by omega)
  exact ⟨hx1, hx2, rfl, hge, hle,
    by simpa [QOI_OP_RUN, QOI_OP_RGB] using hne254,
    by simpa [QOI_OP_RUN, QOI_OP_RGBA] using hne255⟩

/-- Witness for C7 on the session of two identical pixels, whose stream is a
single RUN chunk of length 2. -/
theorem C7_run_range_witness :
    Chunk.runC 2 ∈ encodeChunks [⟨0, 0, 0, 255⟩, ⟨0, 0, 0, 255⟩] ∧
    (1 ≤ 2 ∧ 2 ≤ 62 ∧
     chunkBytes (Chunk.runC 2) = [QOI_OP_RUN ||| (2 - 1)] ∧
     192 ≤ QOI_OP_RUN ||| (2 - 1) ∧ QOI_OP_RUN ||| (2 - 1) ≤ 253 ∧
     QOI_OP_RUN ||| (2 - 1) ≠ QOI_OP_RGB ∧ QOI_OP_RUN ||| (2 - 1) ≠ QOI_OP_RGBA) :=
  ⟨by decide, C7_run_range [⟨0, 0, 0, 255⟩, ⟨0, 0, 0, 255⟩] 2 (by decide)⟩

/-- C8: after decoding the saved stream of a well-formed image the decoder's
64-slot color cache equals the encoder's final cache; both sides start from
64 slots of (0,0,0,0) and share the hash (r*3 + g*5 + b*7 + a*11) mod 64. -/
theorem C8_cache_agreement (img : Img)
    (hmode : img.mode = "RGB" ∨ img.mode = "RGBA")
    (hwd : img.width * img.height = img.data.length)
    (hw : 0 < img.width) (hh : 0 < img.height)
    (hw32 : img.width < 2 ^ 32) (hh32 : img.height < 2 ^ 32)
    (hrows : ∀ raw ∈ img.data, rowValid (if img.mode = "RGBA" then false else true) raw) :
    loadFinalCache (save img).1 = some (encChunks encInit (pixList img)).2.cache ∧
    decInit.cache = encInit.cache ∧
    decInit.cache = List.replicate 64 ⟨0, 0, 0, 0⟩ ∧
    (∀ p : Pix, pixel_hash p = (p.r * 3 + p.g * 5 + p.b * 7 + p.a * 11) % 64) := by
  obtain ⟨-, hload, -, -⟩ := load_save img hmode hwd hw hh hw32 hh32 hrows
  refine ⟨?_, rfl, rfl, fun p => rfl⟩
  rw [loadFinalCache, hload]

/-- Witness for C8 on a concrete 1 by 2 RGBA image. -/
theorem C8_cache_agreement_witness :
    ((0 : Nat) < 1 ∧ (0 : Nat) < 2 ∧
      (∀ raw ∈ [[1, 2, 3, 4], [5, 6, 7, 8]],
        rowValid (if ("RGBA" : String) = "RGBA" then false else true) raw)) ∧
    (loadFinalCache (save (Img.mk "RGBA" 1 2 [[1, 2, 3, 4], [5, 6, 7, 8]])).1
       = some (encChunks encInit (pixList (Img.mk "RGBA" 1 2 [[1, 2, 3, 4], [5, 6, 7, 8]]))).2.cache ∧
     decInit.cache = encInit.cache ∧
     decInit.cache = List.replicate 64 ⟨0, 0, 0, 0⟩ ∧
     (∀ p : Pix, pixel_hash p = (p.r * 3 + p.g * 5 + p.b * 7 + p.a * 11) % 64)) :=
  ⟨⟨by decide, by decide, by decide⟩,
   C8_cache_agreement (Img.mk "RGBA" 1 2 [[1, 2, 3, 4], [5, 6, 7, 8]])
     (Or.inr rfl) (by decide) (by decide) (by decide) (by decide) (by decide) (by decide)⟩

/-- C9: with any per-call buffer larger than 7 bytes the concatenation of the
successive encode calls of one session - the _save loop - equals the output
of a single call with a buffer big enough for the whole image: the carried
predictor, cache, run counter and scan position make the emitted stream
independent of how the output is partitioned into buffers. -/
theorem C9_resumable (img : Img) (bufsize B : Nat)
    (hwd : img.width * img.height = img.data.length)
    (hw : 0 < img.width) (hh : 0 < img.height)
    (hbs : 7 < bufsize) (hB : 6 * (img.width * img.height) + 7 ≤ B) :
    saveLoop img bufsize (img.width * img.height + 1) encIOInit
        = some (encodeBody (pixList img)) ∧
    Option.map Prod.fst (QoiEncoder.encode img B encIOInit)
        = some (encodeBody (pixList img)) := by
  have hinv : EncInv img encIOInit := by
    refine ⟨hw, ?_⟩
    show false = decide (img.height ≤ 0)
    have h0 : ¬ img.height ≤ 0 := by omega
    rw [decide_eq_false h0]
  have hrem0 : remPix img encIOInit = pixList img := by
    rw [remPix, show encPos img encIOInit = 0 from by simp [encPos, encIOInit]]
    exact List.drop_zero _
  have hremlen : (remPix img encIOInit).length = img.width * img.height := by
    rw [hrem0, pixList, List.length_map, ← hwd]
  constructor
  · have h := saveLoop_spec img bufsize hwd hw (by omega) (img.width * img.height + 1)
      encIOInit hinv rfl (by rw [hremlen])
    rw [h, show projSt encIOInit = encInit from rfl, hrem0, encRest_encInit]
  · obtain ⟨bytes, st', hres, hinv', hpos', hprog', hcomp', hbig'⟩ :=
      encodeLoop_spec img B hwd hw (img.width * img.height + 1) encIOInit [] hinv
        (by rw [hremlen]) (by simp only [List.length_nil]; omega)
    have heof : st'.eof = true := hbig' (by simp only [List.length_nil, hremlen]; omega)
    have hfinal : bytes = encodeBody (pixList img) := by
      have hbytes : encRest (projSt encIOInit) (remPix img encIOInit) = bytes := by
        rw [hcomp', heof]
        simp
      rw [← hbytes, show projSt encIOInit = encInit from rfl, hrem0, encRest_encInit]
    rw [QoiEncoder.encode, hres]
    simp only [Option.map_some']
    rw [hfinal]
    simp

/-- Witness for C9 on a 1 by 1 RGBA image, buffer sizes 8 and 13. -/
theorem C9_resumable_witness :
    (7 : Nat) < 8 ∧ 6 * (1 * 1) + 7 ≤ 13 ∧
    (saveLoop (Img.mk "RGBA" 1 1 [[5, 6, 7, 8]]) 8 (1 * 1 + 1) encIOInit
       = some (encodeBody (pixList (Img.mk "RGBA" 1 1 [[5, 6, 7, 8]]))) ∧
     Option.map Prod.fst (QoiEncoder.encode (Img.mk "RGBA" 1 1 [[5, 6, 7, 8]]) 13 encIOInit)
       = some (encodeBody (pixList (Img.mk "RGBA" 1 1 [[5, 6, 7, 8]])))) :=
  ⟨by decide, by decide,
   C9_resumable (Img.mk "RGBA" 1 1 [[5, 6, 7, 8]]) 8 13
     (by decide) (by decide) (by decide) (by decide) (by decide)⟩

/-- C10: a returning QoiEncoder.encode call hands back at most bufsize bytes,
every written byte sitting at an index strictly below bufsize: loop writes
run under the guard i + 6 < bufsize and add at most 6 bytes, and the
post-loop run flush writes its single byte only below bufsize. -/
theorem C10_buffer_bound (img : Img) (bufsize : Nat) (st : EncIOSt)
    (bytes : List Nat) (st' : EncIOSt)
    (h : QoiEncoder.encode img bufsize st = some (bytes, st')) :
    bytes.length ≤ bufsize ∧ ∀ j, j < bytes.length → j < bufsize := by
  have hlen := encodeLoop_length img bufsize (img.width * img.height + 1) st [] bytes st'
    h (Nat.zero_le _)
  exact ⟨hlen, fun j hj => lt_of_lt_of_le hj hlen⟩

/-- Witness for C10 on a 1 by 1 RGBA image with an 8-byte buffer. -/
theorem C10_buffer_bound_witness :
    QoiEncoder.encode (Img.mk "RGBA" 1 1 [[1, 2, 3, 4]]) 8 encIOInit
      = some ([QOI_OP_RGBA, 1, 2, 3, 4],
          ⟨⟨1, 2, 3, 4⟩, cacheSet initCache (pixel_hash ⟨1, 2, 3, 4⟩) ⟨1, 2, 3, 4⟩,
            0, 1, 0, true⟩) ∧
    (([QOI_OP_RGBA, 1, 2, 3, 4] : List Nat).length ≤ 8 ∧
     ∀ j, j < ([QOI_OP_RGBA, 1, 2, 3, 4] : List Nat).length → j < 8) :=
  ⟨by decide,
   C10_buffer_bound (Img.mk "RGBA" 1 1 [[1, 2, 3, 4]]) 8 encIOInit
     [QOI_OP_RGBA, 1, 2, 3, 4]
     ⟨⟨1, 2, 3, 4⟩, cacheSet initCache (pixel_hash ⟨1, 2, 3, 4⟩) ⟨1, 2, 3, 4⟩, 0, 1, 0, true⟩
     (by decide)⟩
